import Mathlib

/-!
# Verification of the polizalab-crm document ingestion & extraction pipeline

A shallow embedding of the core of the `polizalab-crm` repository:

* `src/lambda/policy-handler-py/handler.py` — ingestion trigger (`post_ingest`),
  verification patch (`patch_policy`), renewal date calculator;
* `src/lambda/policy-extract-worker/handler.py` — extraction worker (`process_record`);
* `src/lambda/policy-parse-worker/handler.py` — parse worker (`process_record`);
* `src/lambda/policy-parse-worker/extractor.py` — pattern-based field extractor;
* `src/lambda/policy-parse-worker/claude_extractor.py` — model-based field extractor.

Modelling conventions:

* Python floats are modelled as rationals `ℚ`.  Arithmetic in definitions is
  written with `Rat.divInt` on numerator/denominator components (`qadd`,
  `qdivNat`, …) so that concrete evaluations reduce in the kernel; equational
  lemmas relate these to the ordinary field operations on `ℚ`.
* `round(x, 4)` is modelled as round-half-up to a multiple of `1/10000`
  (`pyRound4`); only properties independent of the tie-breaking direction are
  used in proofs.
* Python strings are modelled as `String`; `str.lower`, `str.strip`, the
  substring test `in` and `" ".join` are re-implemented on the character list
  so they evaluate in the kernel (`pyLower`, `pyStrip`, `strContains`,
  `joinSpace`).  `pyLower` covers ASCII letters and the Spanish accented
  capitals, the only characters relevant to the source data.
* External collaborators are parameters: `re.search` is an abstract
  `search : String → String → Option String` (regex source text, haystack →
  leftmost match), `json.loads` of the model response is an abstract
  `jparse : String → Option ParsedResponse`.
* DynamoDB `update_item` calls appear both as their effect on the stored
  record and as an entry in a write trace (`DbWrite`), recording whether the
  status-changing write carried a `ConditionExpression` on the prior status.
-/

namespace PolizaLab

/-! ## Python-style string helpers -/

/-- Lower-casing of a single character as Python `str.lower` does it, restricted
to ASCII letters plus the Spanish accented capitals that occur in the source
data (`handler.py` / `extractor.py` only ever compare lower-cased text). -/
def pyLowerChar (c : Char) : Char :=
  if c = 'Á' then 'á'
  else if c = 'É' then 'é'
  else if c = 'Í' then 'í'
  else if c = 'Ó' then 'ó'
  else if c = 'Ú' then 'ú'
  else if c = 'Ñ' then 'ñ'
  else if c = 'Ü' then 'ü'
  else if 'A' ≤ c ∧ c ≤ 'Z' then Char.ofNat (c.toNat + 32)
  else c

/-- Python `str.lower`. -/
def pyLower (s : String) : String := ⟨s.data.map pyLowerChar⟩

/-- Whitespace characters stripped by Python `str.strip`. -/
def pySpace (c : Char) : Bool := c = ' ' ∨ c = '\n' ∨ c = '\t' ∨ c = '\r'

/-- Python `str.strip`: remove leading and trailing whitespace. -/
def pyStrip (s : String) : String :=
  ⟨((s.data.dropWhile pySpace).reverse.dropWhile pySpace).reverse⟩

/-- Prefix test on character lists (kernel-reducible replacement for the
library test). -/
def isPre : List Char → List Char → Bool
  | [], _ => true
  | _ :: _, [] => false
  | a :: as, b :: bs => a = b && isPre as bs

/-- Python substring test `pat in hay`. -/
def strContains (hay pat : String) : Bool :=
  (List.range (hay.data.length + 1)).any (fun i => isPre pat.data (hay.data.drop i))

/-- Python `" ".join`. -/
def joinSpace : List String → String
  | [] => ""
  | [s] => s
  | s :: rest => s ++ " " ++ joinSpace rest

/-! ## Kernel-reducible rational arithmetic -/

/-- Exact rational addition, written on components so it reduces in the
kernel. -/
def qadd (a b : ℚ) : ℚ := Rat.divInt (a.num * b.den + b.num * a.den) (a.den * b.den)

/-- Exact division of a rational by a natural number, written on components. -/
def qdivNat (a : ℚ) (n : ℕ) : ℚ := Rat.divInt a.num (a.den * n)

/-- Sum of a list of rationals. -/
def qsum (l : List ℚ) : ℚ := l.foldl qadd 0

/-- Arithmetic mean, as `statistics.mean` on a nonempty list. -/
def pyMean (l : List ℚ) : ℚ := qdivNat (qsum l) l.length

/-- Python `round(x, 4)`, modelled as round-half-up to a multiple of
`1/10000`. -/
def pyRound4 (q : ℚ) : ℚ :=
  Rat.divInt ⌊qadd (Rat.divInt (q.num * 10000) (q.den : ℤ)) (Rat.divInt 1 2)⌋ 10000

/-! ## Document status and stored record -/

/-- The status values a policy document can carry (spec §3 / `handler.py`). -/
inductive Status
  | CREATED
  | UPLOADED
  | PROCESSING
  | EXTRACTED
  | NEEDS_REVIEW
  | VERIFIED
  | FAILED
deriving DecidableEq

open Status

/-- The pipeline-terminal statuses (`{"EXTRACTED", "NEEDS_REVIEW", "VERIFIED"}`
in both workers). -/
def Status.isTerminal : Status → Bool
  | EXTRACTED => true
  | NEEDS_REVIEW => true
  | VERIFIED => true
  | _ => false

/-- One DynamoDB `update_item` call that may set `status`: `setStatus` is the
value written to `status` (if any) and `cond` the expected prior status of the
`ConditionExpression` (if any). -/
structure DbWrite where
  setStatus : Option Status
  cond : Option Status
deriving DecidableEq

/-- The pipeline-relevant attributes of one Policies-table item. -/
structure Doc where
  policyId : String
  userId : String
  status : Status
  textractJobId : Option String
  retryCount : ℕ
  lastError : Option String
  fields : List (String × String)
  fieldConfidence : List (String × ℚ)
  needsReviewFields : List String
  verifiedAtSet : Bool
  verifiedByUserId : Option String
deriving DecidableEq

/-! ## Renewal Date Calculator -/

/-- Proleptic-Gregorian leap-year test (as Python `datetime.date`). -/
def isLeap (y : ℕ) : Bool := (y % 4 = 0 ∧ y % 100 ≠ 0) ∨ y % 400 = 0

/-- Length of month `m` in year `y`. -/
def daysInMonth (y m : ℕ) : ℕ :=
  if m = 2 then (if isLeap y then 29 else 28)
  else if m = 4 ∨ m = 6 ∨ m = 9 ∨ m = 11 then 30
  else 31

/-- A calendar date. -/
structure PDate where
  year : ℕ
  month : ℕ
  day : ℕ
deriving DecidableEq

def isDigit (c : Char) : Bool := '0' ≤ c ∧ c ≤ '9'

def digitVal (c : Char) : ℕ := c.toNat - 48

/-- `datetime.date.fromisoformat`, restricted to the extended `YYYY-MM-DD`
format (the only format the pipeline produces and stores); anything else is
modelled as a parse failure. -/
def parseIsoDate (s : String) : Option PDate :=
  match s.data with
  | [y1, y2, y3, y4, h1, m1, m2, h2, d1, d2] =>
      if isDigit y1 ∧ isDigit y2 ∧ isDigit y3 ∧ isDigit y4 ∧ h1 = '-' ∧
         isDigit m1 ∧ isDigit m2 ∧ h2 = '-' ∧ isDigit d1 ∧ isDigit d2 then
        let y := digitVal y1 * 1000 + digitVal y2 * 100 + digitVal y3 * 10 + digitVal y4
        let m := digitVal m1 * 10 + digitVal m2
        let d := digitVal d1 * 10 + digitVal d2
        if 1 ≤ y ∧ 1 ≤ m ∧ m ≤ 12 ∧ 1 ≤ d ∧ d ≤ daysInMonth y m then
          some ⟨y, m, d⟩
        else none
      else none
  | _ => none

/-- `d + relativedelta(months=12)`: same month of the next year, the day
clamped to that month's length. -/
def addTwelveMonths (d : PDate) : PDate :=
  ⟨d.year + 1, d.month, min d.day (daysInMonth (d.year + 1) d.month)⟩

def digitChar (n : ℕ) : Char := Char.ofNat (48 + n % 10)

def pad2 (n : ℕ) : String := ⟨[digitChar (n / 10), digitChar n]⟩

def pad4 (n : ℕ) : String :=
  ⟨[digitChar (n / 1000), digitChar (n / 100), digitChar (n / 10), digitChar n]⟩

/-- `date.isoformat()`. -/
def isoFormat (d : PDate) : String := pad4 d.year ++ "-" ++ pad2 d.month ++ "-" ++ pad2 d.day

/-- Python truthiness of an optional string: `None` and `""` are falsy. -/
def truthy : Option String → Bool
  | none => false
  | some s => s ≠ ""

/-- `calculate_renewal_date` from `policy-handler-py/handler.py` lines 126-136;
an identical copy lives in `policy-parse-worker/handler.py` lines 72-82. -/
def calculate_renewal_date (policyType startDate : Option String) : Option String :=
  if ¬ truthy policyType ∨ ¬ truthy startDate then none
  else if policyType = some "Vida permanente" then none
  else
    match parseIsoDate ⟨(startDate.getD "").data.take 10⟩ with
    | none => none
    | some d => some (isoFormat (addTwelveMonths d))

/-! ## Textract blocks and the pattern-based field extractor (`extractor.py`) -/

/-- One entry of a Textract block's `Relationships` list. -/
structure Relationship where
  relType : String
  ids : List String
deriving DecidableEq

/-- The attributes of a Textract block used by `extractor.py`; absent JSON
attributes are represented by their Python `.get` defaults. -/
structure Block where
  id : String
  blockType : String
  entityTypes : List String
  relationships : List Relationship
  text : String
  confidence : ℚ
deriving DecidableEq

/-- The Python `{}` fallback of `block_map.get(id, {})`. -/
def emptyBlock : Block := ⟨"", "", [], [], "", 0⟩

/-- `block_map = {b["Id"]: b for b in blocks}` followed by lookup: a later
block with the same id overrides an earlier one. -/
def blockMap (blocks : List Block) (i : String) : Option Block :=
  blocks.foldl (fun acc b => if b.id = i then some b else acc) none

/-- Association-list lookup, modelling Python `dict.get`. -/
def alookup (m : List (String × α)) (k : String) : Option α :=
  (m.find? (fun p => p.1 = k)).map (fun p => p.2)

/-- Dict update on an association list: Python dict assignment keeps the
original position of an existing key and overrides its value. -/
def dictInsert (m : List (String × α)) (k : String) (v : α) : List (String × α) :=
  if m.any (fun p => p.1 = k) then m.map (fun p => if p.1 = k then (k, v) else p)
  else m ++ [(k, v)]

/-- `_get_text_and_confidence` (`extractor.py` lines 62-77): text and average
confidence of a block's child `WORD` blocks, falling back to the block's own
confidence when it has none. -/
def getTextAndConfidence (blocks : List Block) (b : Block) : String × ℚ :=
  let children := ((((b.relationships.filter (fun r => r.relType = "CHILD")).map
      (fun r => r.ids)).flatten.filterMap (fun i => blockMap blocks i)).filter
      (fun c => c.blockType = "WORD"))
  let confs := children.map (fun c => c.confidence)
  (joinSpace (children.map (fun c => c.text)),
   if confs = [] then qdivNat b.confidence 100 else qdivNat (pyMean confs) 100)

/-- `build_structures` (`extractor.py` lines 80-118): the lower-cased forms
key → (value, confidence) map, and the ordered list of `LINE` texts with
confidences. -/
def build_structures (blocks : List Block) :
    List (String × (String × ℚ)) × List (String × ℚ) :=
  blocks.foldl
    (fun acc b =>
      if b.blockType = "KEY_VALUE_SET" ∧ "KEY" ∈ b.entityTypes then
        let kc := getTextAndConfidence blocks b
        let keyLower := pyStrip (pyLower kc.1)
        if keyLower = "" then acc
        else
          let valueIds := (b.relationships.filter (fun r => r.relType = "VALUE")).filterMap
              (fun r => r.ids.head?)
          let vc := match valueIds.getLast? with
            | none => ("", kc.2)
            | some i => getTextAndConfidence blocks ((blockMap blocks i).getD emptyBlock)
          (dictInsert acc.1 keyLower vc, acc.2)
      else if b.blockType = "LINE" then
        if b.text = "" then acc
        else (acc.1, acc.2 ++ [(b.text, qdivNat b.confidence 100)])
      else acc)
    ([], [])

/-- Configuration of one target field; `dflt` models the `"default"` entry. -/
structure FieldConfig where
  keys : List String
  regex : Option String
  dflt : Option String
deriving DecidableEq

/-- `FIELD_PATTERNS` (`extractor.py` lines 21-57). -/
def FIELD_PATTERNS : List (String × FieldConfig) :=
  [("policyNumber",
     ⟨["póliza", "no. póliza", "número de póliza", "núm. póliza", "num. poliza", "no poliza"],
      some "\\b[A-Z0-9]\x7b2,5\x7d[-/][A-Z0-9\\-]\x7b4,20\x7d\\b", none⟩),
   ("insuredName",
     ⟨["asegurado", "nombre del asegurado", "titular", "contratante",
       "nombre del contratante", "nombre"], none, none⟩),
   ("startDate",
     ⟨["inicio de vigencia", "vigencia desde", "vigencia de", "fecha inicio",
       "inicio", "desde"],
      some "\\b\\d\x7b1,2\x7d[/\\-]\\d\x7b1,2\x7d[/\\-]\\d\x7b2,4\x7d\\b", none⟩),
   ("endDate",
     ⟨["fin de vigencia", "vigencia al", "vigencia hasta", "fecha fin",
       "vencimiento", "expiraci", "hasta", "fin"],
      some "\\b\\d\x7b1,2\x7d[/\\-]\\d\x7b1,2\x7d[/\\-]\\d\x7b2,4\x7d\\b", none⟩),
   ("insurer",
     ⟨["compañía", "aseguradora", "empresa emisora", "cia", "compania"], none, none⟩),
   ("premiumTotal",
     ⟨["prima total", "prima neta", "total a pagar", "prima"],
      some "[\\d,]+\\.\\d\x7b2\x7d", none⟩),
   ("currency", ⟨["moneda", "currency"], none, some "MXN"⟩)]

/-- `_match_kv` (`extractor.py` lines 123-132): the first key in dict order
whose lower-cased text contains one of the field's label synonyms as a
substring and whose value strips to something non-empty. -/
def matchKv (cfg : FieldConfig) (kv : List (String × (String × ℚ))) :
    Option (String × ℚ) :=
  (kv.find? (fun p => cfg.keys.any (fun pat => strContains p.1 pat) ∧ pyStrip p.2.1 ≠ ""))
    |>.map (fun p => (pyStrip p.2.1, p.2.2))

/-- `_match_regex` (`extractor.py` lines 135-150). `search` abstracts
`re.search`: given the regex source and a haystack it returns the leftmost
match text, if any. -/
def matchRegex (search : String → String → Option String) (cfg : FieldConfig)
    (lns : List (String × ℚ)) : Option (String × ℚ) :=
  match cfg.regex with
  | none => none
  | some rgx =>
      match search rgx (joinSpace (lns.map (fun p => p.1))) with
      | none => none
      | some m =>
          match lns.find? (fun p => strContains p.1 m) with
          | some p => some (m, p.2)
          | none => some (m, Rat.divInt 1 2)

/-- Python truthiness of an optional `(value, confidence)` pair. -/
def optEmpty : Option (String × ℚ) → Bool
  | none => true
  | some r => r.1 = ""

/-- The body of the per-field loop of `extract_fields` (`extractor.py`
lines 164-184): key-value match, then regex fallback, then field default. -/
def extractOne (search : String → String → Option String)
    (kv : List (String × (String × ℚ))) (lns : List (String × ℚ))
    (cfg : FieldConfig) : Option (String × ℚ) :=
  let v1 := matchKv cfg kv
  let v2 := if optEmpty v1 then matchRegex search cfg lns else v1
  let v3 :=
    if optEmpty v2 then
      match cfg.dflt with
      | some d => if d ≠ "" then some (d, (1 : ℚ)) else v2
      | none => v2
    else v2
  match v3 with
  | some r => if r.1 = "" then none else some r
  | none => none

/-- Output contract shared by both extractor strategies. -/
structure ExtractOut where
  fields : List (String × String)
  fieldConfidence : List (String × ℚ)
  needsReviewFields : List String
deriving DecidableEq

/-- De-duplication preserving first occurrences (`extractor.py`
lines 200-206). -/
def dedupKeepFirst (l : List String) : List String :=
  l.foldl (fun acc f => if f ∈ acc then acc else acc ++ [f]) []

/-- `extract_fields` (`extractor.py` lines 153-211), parameterised by the
abstract regex searcher, the confidence threshold `T` (env
`CONFIDENCE_THRESHOLD`) and the required-field list (env `REQUIRED_FIELDS`). -/
def extract_fields (search : String → String → Option String) (T : ℚ)
    (required : List String) (blocks : List Block) : ExtractOut :=
  let s := build_structures blocks
  let trio := FIELD_PATTERNS.foldl
    (fun (acc : ExtractOut) fc =>
      match extractOne search s.1 s.2 fc.2 with
      | none => acc
      | some r =>
          { fields := acc.fields ++ [(fc.1, r.1)],
            fieldConfidence := acc.fieldConfidence ++ [(fc.1, pyRound4 r.2)],
            needsReviewFields :=
              acc.needsReviewFields ++ (if r.2 < T then [fc.1] else []) })
    ⟨[], [], []⟩
  { trio with
    needsReviewFields :=
      dedupKeepFirst (trio.needsReviewFields ++
        required.filter (fun f => ¬ trio.fields.any (fun p => p.1 = f))) }

/-! ## Model-based field extractor (`claude_extractor.py`) -/

/-- A JSON value of the model's `fields` object. -/
inductive JVal
  | null
  | str (s : String)
  | num (q : ℚ)
deriving DecidableEq

/-- A successfully parsed model response: the `fields` object and the
`confidence` object. -/
structure ParsedResponse where
  fields : List (String × JVal)
  confidence : List (String × ℚ)
deriving DecidableEq

/-- `REQUIRED_FIELDS` hard-coded in `claude_extractor.py` lines 19-21. -/
def claudeRequired : List String :=
  ["policyNumber", "insuredName", "policyType", "insurer", "startDate", "endDate"]

def dropThroughNewline : List Char → Option (List Char)
  | [] => none
  | c :: cs => if c = '\n' then some cs else dropThroughNewline cs

/-- Python `text.split("\n", 1)[-1]`: everything after the first newline, or
the whole string when there is none. -/
def afterFirstNewline (s : String) : String :=
  ((dropThroughNewline s.data).map (fun l => (⟨l⟩ : String))).getD s

/-- Python `text.rsplit("```", 1)[0]`: everything before the last occurrence
of the fence, or the whole string when it does not occur. -/
def beforeLastFence (s : String) : String :=
  let idxs := (List.range (s.data.length + 1)).filter
      (fun i => isPre ("```".data) (s.data.drop i))
  match idxs.getLast? with
  | some i => ⟨s.data.take i⟩
  | none => s

/-- The code-fence stripping step of `claude_extractor.extract_fields`
(lines 111-116). -/
def stripFences (raw : String) : String :=
  let text := pyStrip raw
  if isPre ("```".data) text.data then pyStrip (beforeLastFence (afterFirstNewline text))
  else text

/-- Output of the model-based extractor (field values are JSON values). -/
structure ClaudeOut where
  fields : List (String × JVal)
  fieldConfidence : List (String × ℚ)
  needsReviewFields : List String
deriving DecidableEq

/-- `extract_fields` of `claude_extractor.py` (lines 82-151) from the model's
raw text response on: `jparse` abstracts `json.loads` on the stripped text
(yielding the `fields`/`confidence` objects), and a `json.JSONDecodeError`
propagates to the caller as `Except.error`. -/
def claude_extract_fields (jparse : String → Option ParsedResponse) (T : ℚ)
    (raw : String) : Except String ClaudeOut :=
  match jparse (stripFences raw) with
  | none => .error "JSONDecodeError"
  | some parsed =>
      let acc := parsed.fields.foldl
        (fun (acc : ClaudeOut) fv =>
          if fv.2 = JVal.null then acc
          else
            let conf := (alookup parsed.confidence fv.1).getD 0
            { fields := acc.fields ++ [fv],
              fieldConfidence := acc.fieldConfidence ++ [(fv.1, pyRound4 conf)],
              needsReviewFields :=
                acc.needsReviewFields ++ (if conf < T then [fv.1] else []) })
        ⟨[], [], []⟩
      let withReq := claudeRequired.foldl
        (fun nrf req =>
          if ¬ acc.fields.any (fun p => p.1 = req) ∧ req ∉ nrf then nrf ++ [req]
          else nrf)
        acc.needsReviewFields
      .ok { acc with needsReviewFields := withReq }

/-! ## Ingestion trigger (`post_ingest`) -/

structure IngestResult where
  doc : Doc
  statusCode : ℕ
  published : List String
  writes : List DbWrite
deriving DecidableEq

/-- `post_ingest` (`policy-handler-py/handler.py` lines 358-413) applied to an
existing record `d`. `condFailed` models a `ConditionalCheckFailedException`
on the conditional `{CREATED|FAILED} → UPLOADED` write (a concurrent
invocation advanced the record between the read and the write); `published`
lists the policy ids of the SQS work items sent to the extraction queue. -/
def post_ingest (user : String) (d : Doc) (condFailed : Bool) : IngestResult :=
  if d.userId ≠ user then ⟨d, 403, [], []⟩
  else if d.status = UPLOADED then ⟨d, 200, [], []⟩
  else if d.status ≠ CREATED ∧ d.status ≠ FAILED then ⟨d, 409, [], []⟩
  else if condFailed then ⟨d, 200, [], []⟩
  else
    let d1 :=
      if d.status = FAILED then
        { d with status := UPLOADED, retryCount := d.retryCount + 1, lastError := some "" }
      else { d with status := UPLOADED }
    ⟨d1, 200, [d.policyId], [⟨some UPLOADED, some d.status⟩]⟩

/-! ## Extraction worker -/

/-- Outcome of `textract.start_document_analysis`: a job id, or a
`ClientError` with its error code and message. -/
inductive StartOutcome
  | ok (jobId : String)
  | err (code : String) (msg : String)
deriving DecidableEq

/-- `permanent_errors` (`policy-extract-worker/handler.py` lines 159-160). -/
def permanentErrors : List String :=
  ["InvalidParameterException", "InvalidS3ObjectException",
   "UnsupportedDocumentException", "BadDocumentException"]

structure ExtractResult where
  doc : Doc
  writes : List DbWrite
  attemptedStart : Bool
  startedJobId : Option String
  raised : Bool
deriving DecidableEq

/-- `process_record` of `policy-extract-worker/handler.py` (lines 48-188) as a
function of the stored record. `condFailed` models a
`ConditionalCheckFailedException` on the conditional `UPLOADED → PROCESSING`
write; `outcome` abstracts the Textract start call. `attemptedStart` records
whether the invocation reached the start call at all, `raised` whether it
re-raised so that SQS redelivers the work item. -/
def extractStep (d : Doc) (condFailed : Bool) (outcome : StartOutcome) : ExtractResult :=
  if d.status.isTerminal then ⟨d, [], false, none, false⟩
  else if d.status = PROCESSING ∧ d.textractJobId.isSome then ⟨d, [], false, none, false⟩
  else if d.status ≠ UPLOADED ∧ d.status ≠ PROCESSING then ⟨d, [], false, none, false⟩
  else if d.status = UPLOADED ∧ condFailed then ⟨d, [], false, none, false⟩
  else
    let d1 := if d.status = UPLOADED then { d with status := PROCESSING } else d
    let w1 : List DbWrite :=
      if d.status = UPLOADED then [⟨some PROCESSING, some UPLOADED⟩] else []
    match outcome with
    | .ok jobId =>
        ⟨{ d1 with textractJobId := some jobId }, w1 ++ [⟨none, none⟩],
         true, some jobId, false⟩
    | .err code msg =>
        if code ∈ permanentErrors ∨ 3 ≤ d.retryCount then
          ⟨{ d1 with status := FAILED, lastError := some (code ++ ": " ++ msg) },
           w1 ++ [⟨some FAILED, none⟩], true, none, false⟩
        else
          ⟨{ d1 with status := UPLOADED, retryCount := d.retryCount + 1 },
           w1 ++ [⟨some UPLOADED, none⟩], true, none, true⟩

/-! ## Parse worker -/

/-- A Textract completion notification after SNS/SQS unwrapping, in the
current plain-`JobTag` format: `policyId` is the raw job tag. -/
structure ParseEvent where
  jobId : String
  status : String
  statusMessage : String
  policyId : String
deriving DecidableEq

structure ParseResult where
  doc : Doc
  writes : List DbWrite
deriving DecidableEq

/-- Python `a or b` on optional strings. -/
def pyOr (a b : Option String) : Option String := if truthy a then a else b

/-- The renewal-date computation of the Parse Worker (`handler.py`
lines 188-190): policy type and start date are taken from the fresh
extraction, falling back to the stored record (Python `or`). -/
def parseRenewal (search : String → String → Option String) (T : ℚ)
    (required : List String) (blocks : List Block) (d : Doc) : Option String :=
  let out := extract_fields search T required blocks
  calculate_renewal_date
    (pyOr (alookup out.fields "policyType") (alookup d.fields "policyType"))
    (pyOr (alookup out.fields "startDate") (alookup d.fields "startDate"))

/-- The extracted-fields dict after the optional `fechaRenovacion` insertion
(`handler.py` lines 191-193). -/
def parseFields1 (search : String → String → Option String) (T : ℚ)
    (required : List String) (blocks : List Block) (d : Doc) : List (String × String) :=
  let out := extract_fields search T required blocks
  let fr := parseRenewal search T required blocks d
  if truthy fr then dictInsert out.fields "fechaRenovacion" (fr.getD "")
  else out.fields

/-- `missing_required` (`handler.py` line 196). -/
def parseMissing (search : String → String → Option String) (T : ℚ)
    (required : List String) (blocks : List Block) (d : Doc) : List String :=
  required.filter (fun f => ¬ truthy (alookup (parseFields1 search T required blocks d) f))

/-- `low_confidence` (`handler.py` lines 197-200). -/
def parseLow (search : String → String → Option String) (T : ℚ)
    (required : List String) (blocks : List Block) : List String :=
  ((extract_fields search T required blocks).fieldConfidence.filter
    (fun p => p.2 < T ∧ p.1 ∈ required)).map (fun p => p.1)

/-- `final_status` (`handler.py` lines 202-205). -/
def parseFinal (search : String → String → Option String) (T : ℚ)
    (required : List String) (blocks : List Block) (d : Doc) : Status :=
  if parseMissing search T required blocks d ≠ [] ∨
      parseLow search T required blocks ≠ [] ∨
      (extract_fields search T required blocks).needsReviewFields ≠ [] then NEEDS_REVIEW
  else EXTRACTED

/-- `process_record` of `policy-parse-worker/handler.py` (lines 99-241) as a
function of the stored record `d`. `blocks` abstracts
`get_all_textract_blocks(job_id)`; the S3 archive write does not affect the
stored record and is omitted. -/
def parseStep (search : String → String → Option String) (T : ℚ)
    (required : List String) (ev : ParseEvent) (blocks : List Block) (d : Doc) :
    ParseResult :=
  if ev.policyId = "" then ⟨d, []⟩
  else if d.status.isTerminal then ⟨d, []⟩
  else if ev.status = "FAILED" then
    ⟨{ d with status := FAILED, lastError := some ev.statusMessage },
     [⟨some FAILED, none⟩]⟩
  else
    let out := extract_fields search T required blocks
    let final := parseFinal search T required blocks d
    ⟨{ d with
        status := final,
        fieldConfidence := out.fieldConfidence,
        needsReviewFields := out.needsReviewFields,
        fields := (parseFields1 search T required blocks d).foldl
          (fun acc p => dictInsert acc p.1 p.2) d.fields },
     [⟨some final, none⟩]⟩

/-! ## Verification patch (`patch_policy`) -/

/-- `allowed_fields` (`policy-handler-py/handler.py` lines 463-466). -/
def patchAllowedFields : List String :=
  ["policyNumber", "insuredName", "startDate", "endDate",
   "insurer", "policyType", "premiumTotal", "currency", "rfc"]

structure PatchResult where
  doc : Doc
  statusCode : ℕ
  writes : List DbWrite
deriving DecidableEq

/-- `patch_policy` (`policy-handler-py/handler.py` lines 454-500) applied to
an existing record. -/
def patch_policy (user : String) (d : Doc) (body : List (String × String)) :
    PatchResult :=
  if d.userId ≠ user then ⟨d, 403, []⟩
  else
    let updates := patchAllowedFields.filterMap
        (fun f => (alookup body f).map (fun v => (f, v)))
    ⟨{ d with
        fields := updates.foldl (fun acc p => dictInsert acc p.1 p.2) d.fields,
        status := VERIFIED,
        verifiedAtSet := true,
        verifiedByUserId := some user },
      200, [⟨some VERIFIED, none⟩]⟩

/-! ## Invocation-level trace semantics -/

/-- One pipeline invocation: an ingest call, a delivery of an extraction work
item, or a delivery of a completion notification (spec §4.1-§4.4). -/
inductive Inv
  | ingest (user : String) (condFailed : Bool)
  | extract (condFailed : Bool) (outcome : StartOutcome)
  | parse (ev : ParseEvent) (blocks : List Block)

/-- Effect of one invocation on the stored record. -/
def applyInv (search : String → String → Option String) (T : ℚ)
    (required : List String) (d : Doc) : Inv → Doc
  | .ingest user condFailed => (post_ingest user d condFailed).doc
  | .extract condFailed outcome => (extractStep d condFailed outcome).doc
  | .parse ev blocks => (parseStep search T required ev blocks d).doc

/-- The transition edges of the §4.1 graph as enumerated in the claim:
`CREATED→UPLOADED`, `FAILED→UPLOADED`, `UPLOADED→PROCESSING`,
`UPLOADED/PROCESSING→FAILED`, `PROCESSING→EXTRACTED`,
`PROCESSING→NEEDS_REVIEW`, `NEEDS_REVIEW→VERIFIED`. -/
def specEdge : Status → Status → Bool
  | CREATED, UPLOADED => true
  | FAILED, UPLOADED => true
  | UPLOADED, PROCESSING => true
  | UPLOADED, FAILED => true
  | PROCESSING, FAILED => true
  | PROCESSING, EXTRACTED => true
  | PROCESSING, NEEDS_REVIEW => true
  | NEEDS_REVIEW, VERIFIED => true
  | _, _ => false

/-- Invariant of records at rest: a `PROCESSING` record carries a recorded
job id (both `update_item` calls of a successful start belong to the same
invocation). -/
def statusInv (d : Doc) : Prop := d.status = PROCESSING → d.textractJobId.isSome

/-! ## Spec-modelled diacritic-insensitive match and concrete inputs -/

/-- Accent folding over the characters occurring in the label synonyms. -/
def stripAccentChar (c : Char) : Char :=
  if c = 'á' then 'a'
  else if c = 'é' then 'e'
  else if c = 'í' then 'i'
  else if c = 'ó' then 'o'
  else if c = 'ú' then 'u'
  else if c = 'ñ' then 'n'
  else if c = 'ü' then 'u'
  else c

def stripAccents (s : String) : String := ⟨s.data.map stripAccentChar⟩

/-- Modelled from the spec: the "case/diacritic-insensitive substring match"
of §4.5 — the key-phrase match as the spec describes it, folding accents on
both the recognised key text and the label synonym before the substring test.
(The source's `_match_kv` folds case but not accents.) -/
def specMatchKv (cfg : FieldConfig) (kv : List (String × (String × ℚ))) :
    Option (String × ℚ) :=
  (kv.find? (fun p =>
      cfg.keys.any (fun pat => strContains (stripAccents p.1) (stripAccents pat)) ∧
      pyStrip p.2.1 ≠ ""))
    |>.map (fun p => (pyStrip p.2.1, p.2.2))

/-- Default `REQUIRED_FIELDS` (`policy-parse-worker/handler.py` line 27,
`extractor.py` line 16). -/
def REQUIRED_FIELDS : List String := ["policyNumber", "insuredName", "startDate", "endDate"]

/-- Default `CONFIDENCE_THRESHOLD` of `0.75`. -/
def defaultThreshold : ℚ := Rat.divInt 7500 10000

/-- A minimal record in a given status (concrete test input). -/
def someDoc (s : Status) : Doc := ⟨"pol-1", "usr-1", s, none, 0, none, [], [], [], false, none⟩

/-- Concrete Textract output: one forms key "Numero de Poliza" (written
without accents, as OCR often yields) whose value is "AB-12345" at word
confidence 95. -/
def cxBlocks : List Block :=
  [⟨"k1", "KEY_VALUE_SET", ["KEY"], [⟨"CHILD", ["w1", "w2", "w3"]⟩, ⟨"VALUE", ["v1"]⟩], "", 0⟩,
   ⟨"w1", "WORD", [], [], "Numero", 90⟩,
   ⟨"w2", "WORD", [], [], "de", 90⟩,
   ⟨"w3", "WORD", [], [], "Poliza", 90⟩,
   ⟨"v1", "KEY_VALUE_SET", ["VALUE"], [⟨"CHILD", ["w4"]⟩], "", 0⟩,
   ⟨"w4", "WORD", [], [], "AB-12345", 95⟩]

/-- A `re.search` oracle for an empty line list: the concatenated line text is
empty, on which none of the source's regexes can match. -/
def noSearch : String → String → Option String := fun _ _ => none

/-- The completion notification of the analysis job `job-1`, which failed. -/
def cxE1 : ParseEvent := ⟨"job-1", "FAILED", "boom", "pol-1"⟩

/-- The completion notification of the analysis job `job-2`, which
succeeded. -/
def cxE2 : ParseEvent := ⟨"job-2", "SUCCEEDED", "", "pol-1"⟩

/-- One invocation step at the default configuration. -/
def cxStep (d : Doc) (i : Inv) : Doc := applyInv noSearch defaultThreshold REQUIRED_FIELDS d i

/-- A legitimate at-least-once delivery history: ingest, start of `job-1`
(whose analysis later fails), its failure notification, a user retry, start of
`job-2` (whose analysis succeeds), a redelivered duplicate of the `job-1`
failure notification, and finally the `job-2` success notification — which is
processed while the record sits in `FAILED`. -/
def cxTrace : List Inv :=
  [.ingest "usr-1" false,
   .extract false (.ok "job-1"),
   .parse cxE1 [],
   .ingest "usr-1" false,
   .extract false (.ok "job-2"),
   .parse cxE1 [],
   .parse cxE2 []]

/-- The per-field results of the `extract_fields` loop in field order (used to
characterise the loop's three parallel accumulators). -/
def extractedPairs (search : String → String → Option String) (blocks : List Block) :
    List (String × (String × ℚ)) :=
  let s := build_structures blocks
  FIELD_PATTERNS.filterMap
    (fun fc => (extractOne search s.1 s.2 fc.2).map (fun r => (fc.1, r)))

/-- The non-null field entries of a parsed model response, in response
order. -/
def claudePairs (parsed : ParsedResponse) : List (String × JVal) :=
  parsed.fields.filter (fun fv => fv.2 ≠ JVal.null)

/-- The confidence reported by the model for a field, defaulted to `0.0`. -/
def claudeConf (parsed : ParsedResponse) (f : String) : ℚ :=
  (alookup parsed.confidence f).getD 0

/-- A concrete parsed model response: `policyNumber` present at confidence
`0.9`, `endDate` explicitly `null`, no other fields. -/
def cxParsed : ParsedResponse :=
  ⟨[("policyNumber", JVal.str "AB-1"), ("endDate", JVal.null)],
   [("policyNumber", Rat.divInt 9 10)]⟩

/-- A `json.loads` oracle that parses every string to `cxParsed`. -/
def cxJparse : String → Option ParsedResponse := fun _ => some cxParsed


/-! ## Theorems -/

theorem qadd_eq (a b : ℚ) : qadd a b = a + b := by
  have ha : ((a.den : ℚ)) ≠ 0 := by
    exact_mod_cast a.den_nz
  have hb : ((b.den : ℚ)) ≠ 0 := by
    exact_mod_cast b.den_nz
  rw [qadd, Rat.divInt_eq_div]
  push_cast
  rw [show ((a.num : ℚ) * b.den + b.num * a.den) / (a.den * b.den)
        = ((a.num : ℚ) / a.den + (b.num : ℚ) / b.den) by
      field_simp]
  rw [Rat.num_div_den, Rat.num_div_den]

theorem qdivNat_eq (a : ℚ) (n : ℕ) : qdivNat a n = a / n := by
  rcases Nat.eq_zero_or_pos n with h | h
  · subst h
    simp [qdivNat, Rat.divInt_eq_div]
  · have hd : ((a.den : ℚ)) ≠ 0 := by
      exact_mod_cast a.den_nz
    have hn : ((n : ℚ)) ≠ 0 := by
      exact_mod_cast Nat.pos_iff_ne_zero.mp h
    rw [qdivNat, Rat.divInt_eq_div]
    push_cast
    rw [div_mul_eq_div_div]
    rw [Rat.num_div_den]

theorem qsum_eq (l : List ℚ) : qsum l = l.sum := by
  have key : ∀ (l : List ℚ) (a : ℚ), l.foldl qadd a = a + l.sum := by
    intro l
    induction l with
    | nil => intro a; simp [List.foldl]
    | cons x xs ih =>
        intro a
        simp only [List.foldl, List.sum_cons]
        rw [ih, qadd_eq]
        ring
  rw [qsum, key, zero_add]

theorem pyMean_eq (l : List ℚ) : pyMean l = l.sum / l.length := by
  rw [pyMean, qdivNat_eq, qsum_eq]

theorem pyRound4_eq (q : ℚ) : pyRound4 q = (round (q * 10000) : ℚ) / 10000 := by
  have hd : ((q.den : ℚ)) ≠ 0 := by
    exact_mod_cast q.den_nz
  rw [pyRound4, round_eq, qadd_eq, Rat.divInt_eq_div, Rat.divInt_eq_div, Rat.divInt_eq_div]
  congr 2
  push_cast
  rw [show ((q.num : ℚ) * 10000 / q.den) = ((q.num : ℚ) / q.den) * 10000 by ring]
  rw [Rat.num_div_den]

/-- `pyRound4` is monotone. -/
theorem pyRound4_mono {a b : ℚ} (h : a ≤ b) : pyRound4 a ≤ pyRound4 b := by
  rw [pyRound4_eq, pyRound4_eq]
  have h1 : a * 10000 ≤ b * 10000 := by nlinarith
  have h2 : round (a * 10000) ≤ round (b * 10000) := by
    rw [round_eq, round_eq]
    exact Int.floor_mono (by linarith)
  have h3 : ((round (a * 10000) : ℚ)) ≤ ((round (b * 10000) : ℚ)) := by exact_mod_cast h2
  linarith

/-- `pyRound4` fixes rationals that are integer multiples of `1/10000`;
hence a threshold with at most four decimal places is preserved. -/
theorem pyRound4_le_of_le {T q : ℚ} {k : ℤ} (hT : T = Rat.divInt k 10000)
    (h : T ≤ q) : T ≤ pyRound4 q := by
  rw [pyRound4_eq]
  have hT' : T = (k : ℚ) / 10000 := by rw [hT, Rat.divInt_eq_div]; norm_num
  have h1 : (k : ℚ) ≤ q * 10000 := by
    rw [hT'] at h
    nlinarith
  have h2 : (k : ℤ) ≤ round (q * 10000) := by
    calc (k : ℤ) = round ((k : ℚ)) := by rw [round_intCast]
    _ ≤ round (q * 10000) := by
        rw [round_eq, round_eq]
        exact Int.floor_mono (by linarith)
  have h3 : ((k : ℚ)) ≤ ((round (q * 10000) : ℤ) : ℚ) := by exact_mod_cast h2
  rw [hT']
  linarith

/-- `pyRound4` maps `[0, 1]` into `[0, 1]`. -/
theorem pyRound4_mem_unit {q : ℚ} (h0 : 0 ≤ q) (h1 : q ≤ 1) :
    0 ≤ pyRound4 q ∧ pyRound4 q ≤ 1 := by
  constructor
  · have := pyRound4_le_of_le (T := 0) (k := 0) (by simp) h0
    simpa using this
  · have hm : pyRound4 q ≤ pyRound4 1 := pyRound4_mono h1
    have : pyRound4 1 = 1 := by
      rw [pyRound4_eq]
      rw [show ((1 : ℚ) * 10000) = ((10000 : ℤ) : ℚ) by norm_num]
      rw [round_intCast]
      norm_num
    linarith [hm, this.le]

/-- **C6**: For every policy type and start date, the Renewal Date Calculator
returns null when the policy type is the permanent-life type
(`"Vida permanente"`); otherwise it returns the start date plus 12 months
(same month next year, day clamped), or null when the start date is absent or
unparseable. -/
theorem C6_renewal_date (pt sd : Option String) :
    (pt = some "Vida permanente" → calculate_renewal_date pt sd = none) ∧
    (¬ truthy pt → calculate_renewal_date pt sd = none) ∧
    (¬ truthy sd → calculate_renewal_date pt sd = none) ∧
    (∀ s, truthy pt → pt ≠ some "Vida permanente" → sd = some s → s ≠ "" →
      calculate_renewal_date pt sd =
        (parseIsoDate ⟨s.data.take 10⟩).map (fun d => isoFormat (addTwelveMonths d))) := by
  refine ⟨?_, ?_, ?_, ?_⟩
  · intro h
    subst h
    by_cases hsd : truthy sd <;> simp [calculate_renewal_date, hsd]
  · intro h
    simp [calculate_renewal_date, h]
  · intro h
    simp [calculate_renewal_date, h]
  · intro s h1 h2 h3 hs
    subst h3
    have ht : truthy (some s) = true := by simp [truthy, hs]
    simp only [calculate_renewal_date, h1, ht, Option.getD_some]
    simp only [not_true_eq_false, false_or, if_false, if_neg h2]
    cases hp : parseIsoDate ⟨s.data.take 10⟩ <;> simp [hp]

/-- **C6** witness: the permanent-life type yields no renewal date, and a
leap-day start `2024-02-29` (inside a timestamp, exercising the `[:10]`
slice) renews on `2025-02-28`. -/
theorem C6_renewal_date_witness :
    calculate_renewal_date (some "Vida permanente") (some "2024-02-29") = none ∧
    calculate_renewal_date (some "Seguro de Autos") (some "2024-02-29T00:00:00") =
      some "2025-02-28" := by
  refine ⟨(C6_renewal_date (some "Vida permanente") (some "2024-02-29")).1 rfl, ?_⟩
  have h := (C6_renewal_date (some "Seguro de Autos") (some "2024-02-29T00:00:00")).2.2.2
    "2024-02-29T00:00:00" (by decide) (by decide) rfl (by decide)
  rw [h]
  decide

/-- **C10**: For every PATCH request on an existing document whose owner
matches the caller, `patch_policy` unconditionally writes `status = VERIFIED`
together with `verifiedAt` and `verifiedByUserId`, whatever the prior status —
the single status write carries no `ConditionExpression`, so no guard
restricts verification to `NEEDS_REVIEW` documents. -/
theorem C10_patch_verifies_unconditionally (user : String) (d : Doc)
    (body : List (String × String)) (hOwner : d.userId = user) :
    (patch_policy user d body).statusCode = 200 ∧
    (patch_policy user d body).doc.status = VERIFIED ∧
    (patch_policy user d body).doc.verifiedAtSet = true ∧
    (patch_policy user d body).doc.verifiedByUserId = some user ∧
    (patch_policy user d body).writes = [⟨some VERIFIED, none⟩] := by
  simp [patch_policy, hOwner]

/-- **C10** witness: a `CREATED` and a `PROCESSING` document are both moved
straight to `VERIFIED` by a PATCH. -/
theorem C10_patch_verifies_unconditionally_witness :
    (patch_policy "usr-1" (someDoc CREATED) []).doc.status = VERIFIED ∧
    (patch_policy "usr-1" (someDoc PROCESSING) []).doc.status = VERIFIED ∧
    (patch_policy "usr-1" (someDoc PROCESSING) []).doc.verifiedByUserId = some "usr-1" := by
  exact ⟨(C10_patch_verifies_unconditionally "usr-1" (someDoc CREATED) [] rfl).2.1,
         (C10_patch_verifies_unconditionally "usr-1" (someDoc PROCESSING) [] rfl).2.1,
         (C10_patch_verifies_unconditionally "usr-1" (someDoc PROCESSING) [] rfl).2.2.2.1⟩

/-- **C5**: For every ingest request by the document's owner: a document read
in `CREATED` or `FAILED` is conditionally moved to `UPLOADED` and exactly one
work item referencing it is published; a duplicate call that finds the status
already `UPLOADED` — on the read or through the conditional-write failure —
returns HTTP 200 without publishing; any other current status yields
HTTP 409. -/
theorem C5_ingest_idempotency (user : String) (d : Doc) (hOwner : d.userId = user) :
    (d.status = UPLOADED → ∀ cf, post_ingest user d cf = ⟨d, 200, [], []⟩) ∧
    ((d.status = CREATED ∨ d.status = FAILED) →
      (post_ingest user d false).statusCode = 200 ∧
      (post_ingest user d false).published = [d.policyId] ∧
      (post_ingest user d false).doc.status = UPLOADED ∧
      (post_ingest user d false).writes = [⟨some UPLOADED, some d.status⟩]) ∧
    ((d.status = CREATED ∨ d.status = FAILED) →
      post_ingest user d true = ⟨d, 200, [], []⟩) ∧
    (d.status = PROCESSING ∨ d.status = EXTRACTED ∨ d.status = NEEDS_REVIEW ∨
        d.status = VERIFIED →
      ∀ cf, (post_ingest user d cf).statusCode = 409 ∧
        (post_ingest user d cf).published = []) := by
  refine ⟨?_, ?_, ?_, ?_⟩
  · intro h cf
    simp [post_ingest, hOwner, h]
  · rintro (h | h) <;> simp [post_ingest, hOwner, h]
  · rintro (h | h) <;> simp [post_ingest, hOwner, h]
  · rintro (h | h | h | h) <;> intro cf <;> simp [post_ingest, hOwner, h]

/-- **C5** witness: ingest from `CREATED` publishes exactly one item and moves
to `UPLOADED`; a duplicate that reads `UPLOADED` publishes nothing; a
conditional-write failure from `CREATED` is returned as success without
publishing; `PROCESSING` is a conflict. -/
theorem C5_ingest_idempotency_witness :
    (post_ingest "usr-1" (someDoc CREATED) false).published = ["pol-1"] ∧
    post_ingest "usr-1" (someDoc UPLOADED) false = ⟨someDoc UPLOADED, 200, [], []⟩ ∧
    post_ingest "usr-1" (someDoc CREATED) true = ⟨someDoc CREATED, 200, [], []⟩ ∧
    (post_ingest "usr-1" (someDoc PROCESSING) false).statusCode = 409 := by
  refine ⟨(C5_ingest_idempotency "usr-1" (someDoc CREATED) rfl).2.1 (Or.inl rfl) |>.2.1,
    (C5_ingest_idempotency "usr-1" (someDoc UPLOADED) rfl).1 rfl false,
    (C5_ingest_idempotency "usr-1" (someDoc CREATED) rfl).2.2.1 (Or.inl rfl),
    ((C5_ingest_idempotency "usr-1" (someDoc PROCESSING) rfl).2.2.2 (Or.inl rfl) false).1⟩

/-- **C3** (counterexample): starting from a fresh `UPLOADED` record with
`retryCount = 0`, three consecutive transient start failures leave the record
in `UPLOADED` with `retryCount = 3` — not in `FAILED` as the claim's final
clause asserts; the fourth failure is the one that writes `FAILED`. -/
theorem C3_counterexample :
    (let e := StartOutcome.err "ThrottlingException" "Rate exceeded"
     let d1 := (extractStep (someDoc UPLOADED) false e).doc
     let d2 := (extractStep d1 false e).doc
     let d3 := (extractStep d2 false e).doc
     d3.status = UPLOADED ∧ ¬ d3.status = FAILED ∧ d3.retryCount = 3 ∧
       (extractStep d3 false e).doc.status = FAILED) := by
  decide

/-- **C3** (amended): while `retryCount < 3`, a transient start failure writes
`status = UPLOADED` with `retryCount + 1` and re-raises so the queue
redelivers; once `retryCount ≥ 3`, the next failure of any kind writes
`status = FAILED` with `lastError = "<code>: <message>"` without raising; and
a `FAILED` record never reaches the start call again.  In particular three
consecutive transient failures leave the record `UPLOADED` with `retryCount`
at the cap of 3, and the **fourth** failure leaves it `FAILED` with
`lastError` set to that error's message. -/
theorem C3_retry_budget (d : Doc) (code msg : String) (hs : d.status = UPLOADED) :
    (code ∉ permanentErrors → d.retryCount < 3 →
      extractStep d false (.err code msg) =
        ⟨{ d with status := UPLOADED, retryCount := d.retryCount + 1 },
         [⟨some PROCESSING, some UPLOADED⟩, ⟨some UPLOADED, none⟩], true, none, true⟩) ∧
    (3 ≤ d.retryCount →
      extractStep d false (.err code msg) =
        ⟨{ d with status := FAILED, lastError := some (code ++ ": " ++ msg) },
         [⟨some PROCESSING, some UPLOADED⟩, ⟨some FAILED, none⟩], true, none, false⟩) ∧
    (∀ dF : Doc, dF.status = FAILED → ∀ cf o,
      extractStep dF cf o = ⟨dF, [], false, none, false⟩) := by
  refine ⟨?_, ?_, ?_⟩
  · intro h1 h2
    have h3 : ¬ (code ∈ permanentErrors ∨ 3 ≤ d.retryCount) := by
      push_neg
      exact ⟨h1, by omega⟩
    simp [extractStep, hs, h3, Status.isTerminal]
  · intro h1
    have h3 : code ∈ permanentErrors ∨ 3 ≤ d.retryCount := Or.inr h1
    simp [extractStep, hs, h3, Status.isTerminal]
  · intro dF h cf o
    simp [extractStep, h, Status.isTerminal]

/-- **C3** witness: one transient failure bumps `retryCount` to 1 and leaves
`UPLOADED`; at `retryCount = 3` a transient failure writes `FAILED` with the
error message; a `FAILED` record does not attempt another start. -/
theorem C3_retry_budget_witness :
    (extractStep (someDoc UPLOADED) false
        (.err "ThrottlingException" "Rate exceeded")).doc.retryCount = 1 ∧
    (extractStep (someDoc UPLOADED) false
        (.err "ThrottlingException" "Rate exceeded")).doc.status = UPLOADED ∧
    (extractStep { someDoc UPLOADED with retryCount := 3 } false
        (.err "InternalServerError" "boom")).doc.status = FAILED ∧
    (extractStep { someDoc UPLOADED with retryCount := 3 } false
        (.err "InternalServerError" "boom")).doc.lastError =
      some "InternalServerError: boom" ∧
    extractStep (someDoc FAILED) false (.ok "job-9") =
      ⟨someDoc FAILED, [], false, none, false⟩ := by
  have h := C3_retry_budget (someDoc UPLOADED) "ThrottlingException" "Rate exceeded" rfl
  have h2 := C3_retry_budget { someDoc UPLOADED with retryCount := 3 }
    "InternalServerError" "boom" rfl
  have e1 := h.1 (by decide) (by decide)
  have e2 := h2.2.1 (by decide)
  refine ⟨?_, ?_, ?_, ?_, h.2.2 (someDoc FAILED) rfl false (.ok "job-9")⟩
  · rw [e1]
    decide
  · rw [e1]
  · rw [e2]
  · rw [e2]
    decide

/-- **C2** (counterexample): the Extraction Worker's permanent-failure
invocation performs a status-changing write (`status = FAILED`) with no
`ConditionExpression` — so not every status-changing write of the pipeline is
a conditional write guarded by the expected prior status. -/
theorem C2_counterexample :
    ¬ (∀ w ∈ (extractStep (someDoc UPLOADED) false
          (.err "UnsupportedDocumentException" "bad document")).writes,
        w.setStatus.isSome → w.cond.isSome) := by
  decide

/-- **C2** (amended): the Ingestion Trigger's `{CREATED|FAILED} → UPLOADED`
write and the Extraction Worker's `UPLOADED → PROCESSING` write are
conditional writes guarded by the expected prior status, and a failed
condition is treated as an idempotent success (HTTP 200 resp. a silent
return, never an error); the Extraction Worker's `FAILED` and transient
`UPLOADED` writes and the Parse Worker's `FAILED` and final
`EXTRACTED`/`NEEDS_REVIEW` writes are unconditional, guarded only by the
status read at the start of the invocation. -/
theorem C2_guarded_writes (search : String → String → Option String) (T : ℚ)
    (required : List String) (user : String) (d : Doc) (cf : Bool)
    (o : StartOutcome) (ev : ParseEvent) (blocks : List Block) :
    (∀ w ∈ (post_ingest user d cf).writes, w.cond = some d.status) ∧
    (d.userId = user → (d.status = CREATED ∨ d.status = FAILED) →
      post_ingest user d true = ⟨d, 200, [], []⟩) ∧
    (∀ w ∈ (extractStep d cf o).writes,
      w.setStatus = some PROCESSING → w.cond = some UPLOADED) ∧
    (d.status = UPLOADED → extractStep d true o = ⟨d, [], false, none, false⟩) ∧
    (∀ w ∈ (extractStep d cf o).writes,
      w.setStatus = some FAILED ∨ w.setStatus = some UPLOADED → w.cond = none) ∧
    (∀ w ∈ (parseStep search T required ev blocks d).writes, w.cond = none) := by
  refine ⟨?_, ?_, ?_, ?_, ?_, ?_⟩
  · unfold post_ingest
    split_ifs <;> simp
  · intro hOwner h
    rcases h with h | h <;> simp [post_ingest, hOwner, h]
  · rcases o with j | ⟨code, msg⟩ <;>
      simp only [extractStep] <;> split_ifs <;> simp_all
  · intro h
    simp [extractStep, h, Status.isTerminal]
  · rcases o with j | ⟨code, msg⟩ <;>
      simp only [extractStep] <;> split_ifs <;> simp_all
  · unfold parseStep
    split_ifs <;> simp

/-- **C2** witness: a conditional-write failure on ingest from `CREATED`
returns success without publishing, and a conditional-write failure on the
worker's `UPLOADED → PROCESSING` transition is a silent no-op. -/
theorem C2_guarded_writes_witness :
    post_ingest "usr-1" (someDoc CREATED) true = ⟨someDoc CREATED, 200, [], []⟩ ∧
    extractStep (someDoc UPLOADED) true (.ok "job-1") =
      ⟨someDoc UPLOADED, [], false, none, false⟩ := by
  have h := C2_guarded_writes noSearch defaultThreshold REQUIRED_FIELDS
    "usr-1" (someDoc CREATED) true (.ok "job-1") cxE1 []
  have h2 := C2_guarded_writes noSearch defaultThreshold REQUIRED_FIELDS
    "usr-1" (someDoc UPLOADED) true (.ok "job-1") cxE1 []
  exact ⟨h.2.1 rfl (Or.inl rfl), h2.2.2.2.1 rfl⟩

/-! ### Association-list and extractor infrastructure lemmas -/

theorem alookup_nil {α : Type} (k : String) : alookup ([] : List (String × α)) k = none := rfl

theorem alookup_cons_self {α : Type} (k : String) (v : α) (rest : List (String × α)) :
    alookup ((k, v) :: rest) k = some v := by
  simp [alookup, List.find?]

theorem alookup_cons_ne {α : Type} {k1 k : String} (v : α) (rest : List (String × α))
    (h : k1 ≠ k) : alookup ((k1, v) :: rest) k = alookup rest k := by
  simp [alookup, List.find?, h]

theorem alookup_none_of_not_mem {α : Type} {m : List (String × α)} {k : String}
    (h : ∀ p ∈ m, p.1 ≠ k) : alookup m k = none := by
  induction m with
  | nil => rfl
  | cons p rest ih =>
      rcases p with ⟨k1, v⟩
      rw [alookup_cons_ne v rest (h (k1, v) (by simp))]
      exact ih (fun q hq => h q (by simp [hq]))

theorem alookup_mem_of_some {α : Type} {m : List (String × α)} {k : String} {v : α}
    (h : alookup m k = some v) : (k, v) ∈ m := by
  induction m with
  | nil => simp [alookup] at h
  | cons p rest ih =>
      rcases p with ⟨k1, v1⟩
      by_cases hk : k1 = k
      · subst hk
        rw [alookup_cons_self] at h
        simp [← Option.some_inj.mp h]
      · rw [alookup_cons_ne v1 rest hk] at h
        simp [ih h]

theorem alookup_some_of_mem_key {α : Type} {m : List (String × α)} {k : String}
    (h : ∃ p ∈ m, p.1 = k) : ∃ v, alookup m k = some v ∧ (k, v) ∈ m := by
  induction m with
  | nil => simp at h
  | cons p rest ih =>
      rcases p with ⟨k1, v1⟩
      by_cases hk : k1 = k
      · subst hk
        exact ⟨v1, alookup_cons_self k1 v1 rest, by simp⟩
      · rw [alookup_cons_ne v1 rest hk]
        rcases h with ⟨q, hq, hqk⟩
        rcases List.mem_cons.mp hq with rfl | hq2
        · exact absurd hqk hk
        · rcases ih ⟨q, hq2, hqk⟩ with ⟨v, hv, hvm⟩
          exact ⟨v, hv, by simp [hvm]⟩

theorem dictInsert_mem {α : Type} {m : List (String × α)} {k : String} {v : α}
    {p : String × α} (h : p ∈ dictInsert m k v) : p = (k, v) ∨ p ∈ m := by
  unfold dictInsert at h
  split_ifs at h
  · rcases List.mem_map.mp h with ⟨q, hq, hpq⟩
    by_cases hk : q.1 = k
    · simp [hk] at hpq
      exact Or.inl hpq.symm
    · simp [hk] at hpq
      exact Or.inr (hpq ▸ hq)
  · rcases List.mem_append.mp h with h1 | h1
    · exact Or.inr h1
    · simp at h1
      exact Or.inl h1

theorem alookup_mapUpdate_self {α : Type} {m : List (String × α)} {k : String} (v : α)
    (hany : m.any (fun p => p.1 = k)) :
    alookup (m.map (fun p => if p.1 = k then (k, v) else p)) k = some v := by
  induction m with
  | nil => simp at hany
  | cons p rest ih =>
      rcases p with ⟨k1, v1⟩
      by_cases hk : k1 = k
      · simp only [List.map_cons, hk, if_pos rfl]
        exact alookup_cons_self k v (rest.map _)
      · simp only [List.map_cons, if_neg hk]
        rw [alookup_cons_ne v1 _ hk]
        apply ih
        simp only [List.any_cons, Bool.or_eq_true] at hany
        rcases hany with h1 | h1
        · exact absurd (by simpa using h1) hk
        · exact h1

theorem alookup_mapUpdate_ne {α : Type} {m : List (String × α)} {k k2 : String} (v : α)
    (h : k ≠ k2) :
    alookup (m.map (fun p => if p.1 = k then (k, v) else p)) k2 = alookup m k2 := by
  induction m with
  | nil => rfl
  | cons p rest ih =>
      rcases p with ⟨k1, v1⟩
      by_cases hk : k1 = k
      · subst hk
        rw [List.map_cons,
          show (if ((k1, v1) : String × α).1 = k1 then (k1, v) else (k1, v1)) = (k1, v)
            from if_pos rfl]
        rw [alookup_cons_ne v _ h, alookup_cons_ne v1 _ h]
        exact ih
      · simp only [List.map_cons, if_neg hk]
        by_cases hk2 : k1 = k2
        · subst hk2
          rw [alookup_cons_self, alookup_cons_self]
        · rw [alookup_cons_ne v1 _ hk2, alookup_cons_ne v1 _ hk2]
          exact ih

theorem alookup_append_single_self {α : Type} {m : List (String × α)} {k : String} (v : α)
    (hany : ¬ m.any (fun p => p.1 = k)) : alookup (m ++ [(k, v)]) k = some v := by
  induction m with
  | nil => exact alookup_cons_self k v []
  | cons p rest ih =>
      rcases p with ⟨k1, v1⟩
      have hk : k1 ≠ k := by
        intro hkk
        exact hany (by simp [hkk])
      rw [List.cons_append, alookup_cons_ne v1 _ hk]
      exact ih (fun hc => hany (by simp only [List.any_cons, Bool.or_eq_true]; exact Or.inr hc))

theorem alookup_append_single_ne {α : Type} {m : List (String × α)} {k k2 : String} (v : α)
    (h : k ≠ k2) : alookup (m ++ [(k, v)]) k2 = alookup m k2 := by
  induction m with
  | nil => simp [alookup_cons_ne v [] h, alookup_nil]
  | cons p rest ih =>
      rcases p with ⟨k1, v1⟩
      by_cases hk2 : k1 = k2
      · subst hk2
        rw [List.cons_append, alookup_cons_self, alookup_cons_self]
      · rw [List.cons_append, alookup_cons_ne v1 _ hk2, alookup_cons_ne v1 _ hk2]
        exact ih

theorem alookup_dictInsert_self {α : Type} (m : List (String × α)) (k : String) (v : α) :
    alookup (dictInsert m k v) k = some v := by
  unfold dictInsert
  split_ifs with hany
  · exact alookup_mapUpdate_self v hany
  · exact alookup_append_single_self v hany

theorem alookup_dictInsert_ne {α : Type} (m : List (String × α)) {k k2 : String} (v : α)
    (h : k ≠ k2) : alookup (dictInsert m k v) k2 = alookup m k2 := by
  unfold dictInsert
  split_ifs with hany
  · exact alookup_mapUpdate_ne v h
  · exact alookup_append_single_ne v h

theorem alookup_map_val {α β : Type} (g : String × α → β) (m : List (String × α))
    (k : String) :
    alookup (m.map (fun p => (p.1, g p))) k = (m.find? (fun p => p.1 = k)).map g := by
  induction m with
  | nil => rfl
  | cons p rest ih =>
      rcases p with ⟨k1, v1⟩
      by_cases hk : k1 = k
      · subst hk
        rw [List.map_cons, alookup_cons_self, List.find?_cons_of_pos _ (by simp)]
        rfl
      · rw [List.map_cons, alookup_cons_ne _ _ hk, List.find?_cons_of_neg _ (by simp [hk])]
        exact ih

theorem alookup_filterMap_keyed {β : Type} (g : String × FieldConfig → Option β) :
    ∀ (L : List (String × FieldConfig)), (L.map Prod.fst).Nodup →
      ∀ {f : String} {cfg : FieldConfig}, (f, cfg) ∈ L →
        alookup (L.filterMap (fun fc => (g fc).map (fun r => (fc.1, r)))) f = g (f, cfg) := by
  intro L
  induction L with
  | nil => intro _ f cfg hmem; simp at hmem
  | cons fc0 L ih =>
      intro hnd f cfg hmem
      rcases fc0 with ⟨f0, c0⟩
      rw [List.map_cons, List.nodup_cons] at hnd
      rcases List.mem_cons.mp hmem with heq | hm2
      · injection heq with h1 h2
        subst h1
        subst h2
        cases hg : g (f, cfg) with
        | none =>
            simp only [List.filterMap_cons, hg, Option.map_none']
            apply alookup_none_of_not_mem
            intro p hp
            rcases List.mem_filterMap.mp hp with ⟨fc, hfc, hmap⟩
            rcases Option.map_eq_some'.mp hmap with ⟨r, _, hr⟩
            rw [← hr]
            intro hcontra
            exact hnd.1 (List.mem_map.mpr ⟨fc, hfc, hcontra⟩)
        | some b =>
            simp only [List.filterMap_cons, hg, Option.map_some']
            exact alookup_cons_self f b _
      · have hne : f0 ≠ f := by
          intro hc
          subst hc
          exact hnd.1 (List.mem_map.mpr ⟨(f0, cfg), hm2, rfl⟩)
        cases hg0 : g (f0, c0) with
        | none =>
            simp only [List.filterMap_cons, hg0, Option.map_none']
            exact ih hnd.2 hm2
        | some b =>
            simp only [List.filterMap_cons, hg0, Option.map_some']
            rw [alookup_cons_ne _ _ hne]
            exact ih hnd.2 hm2

/-- Characterisation of the three parallel accumulators of the
`extract_fields` field loop. -/
theorem extract_fold_spec (search : String → String → Option String)
    (kv : List (String × (String × ℚ))) (lns : List (String × ℚ)) (T : ℚ) :
    ∀ (L : List (String × FieldConfig)) (acc : ExtractOut),
      L.foldl
        (fun (acc : ExtractOut) fc =>
          match extractOne search kv lns fc.2 with
          | none => acc
          | some r =>
              { fields := acc.fields ++ [(fc.1, r.1)],
                fieldConfidence := acc.fieldConfidence ++ [(fc.1, pyRound4 r.2)],
                needsReviewFields :=
                  acc.needsReviewFields ++ (if r.2 < T then [fc.1] else []) })
        acc =
      { fields := acc.fields ++
          L.filterMap (fun fc => (extractOne search kv lns fc.2).map (fun r => (fc.1, r.1))),
        fieldConfidence := acc.fieldConfidence ++
          L.filterMap
            (fun fc => (extractOne search kv lns fc.2).map (fun r => (fc.1, pyRound4 r.2))),
        needsReviewFields := acc.needsReviewFields ++
          ((L.filterMap
              (fun fc => (extractOne search kv lns fc.2).map (fun r => (fc.1, r)))).filter
            (fun p => p.2.2 < T)).map (fun p => p.1) } := by
  intro L
  induction L with
  | nil => intro acc; simp
  | cons fc L ih =>
      intro acc
      rw [List.foldl_cons]
      cases hg : extractOne search kv lns fc.2 with
      | none =>
          simp only [hg, List.filterMap_cons, Option.map_none']
          rw [ih]
      | some r =>
          simp only [hg, List.filterMap_cons, Option.map_some']
          rw [ih]
          by_cases hr : r.2 < T <;>
            simp [hr, List.filter_cons, List.append_assoc]

theorem any_key_map_pairs (pairs : List (String × (String × ℚ))) (f : String) :
    ((pairs.map (fun p => (p.1, p.2.1))).any (fun p => p.1 = f)) =
      (pairs.any (fun p => p.1 = f)) := by
  induction pairs with
  | nil => rfl
  | cons p rest ih => simp [List.any_cons, ih]

/-- `extract_fields` in terms of the per-field results `extractedPairs`. -/
theorem extract_fields_eq (search : String → String → Option String) (T : ℚ)
    (required : List String) (blocks : List Block) :
    extract_fields search T required blocks =
      { fields := (extractedPairs search blocks).map (fun p => (p.1, p.2.1)),
        fieldConfidence := (extractedPairs search blocks).map (fun p => (p.1, pyRound4 p.2.2)),
        needsReviewFields := dedupKeepFirst
          (((extractedPairs search blocks).filter (fun p => p.2.2 < T)).map (fun p => p.1) ++
            required.filter (fun f =>
              ¬ (extractedPairs search blocks).any (fun p => p.1 = f))) } := by
  simp only [extract_fields, extractedPairs]
  rw [extract_fold_spec search (build_structures blocks).1 (build_structures blocks).2 T
    FIELD_PATTERNS ⟨[], [], []⟩]
  have hfields :
      FIELD_PATTERNS.filterMap
          (fun fc => (extractOne search (build_structures blocks).1
              (build_structures blocks).2 fc.2).map (fun r => (fc.1, r.1))) =
        (FIELD_PATTERNS.filterMap
          (fun fc => (extractOne search (build_structures blocks).1
              (build_structures blocks).2 fc.2).map (fun r => (fc.1, r)))).map
            (fun p => (p.1, p.2.1)) := by
    rw [List.map_filterMap]
    simp only [Option.map_map]
    rfl
  have hconf :
      FIELD_PATTERNS.filterMap
          (fun fc => (extractOne search (build_structures blocks).1
              (build_structures blocks).2 fc.2).map (fun r => (fc.1, pyRound4 r.2))) =
        (FIELD_PATTERNS.filterMap
          (fun fc => (extractOne search (build_structures blocks).1
              (build_structures blocks).2 fc.2).map (fun r => (fc.1, r)))).map
            (fun p => (p.1, pyRound4 p.2.2)) := by
    rw [List.map_filterMap]
    simp only [Option.map_map]
    rfl
  simp only [List.nil_append, ExtractOut.mk.injEq]
  refine ⟨hfields, hconf, ?_⟩
  congr 1
  congr 1
  apply List.filter_congr
  intro f _
  simp only [hfields, any_key_map_pairs]

theorem matchKv_some {cfg : FieldConfig} {kv : List (String × (String × ℚ))}
    {r : String × ℚ} (h : matchKv cfg kv = some r) :
    r.1 ≠ "" ∧ ∃ p ∈ kv, r = (pyStrip p.2.1, p.2.2) := by
  unfold matchKv at h
  rcases Option.map_eq_some'.mp h with ⟨q, hq, hr⟩
  have hp := List.find?_some hq
  have hmem := List.mem_of_find?_eq_some hq
  simp only [decide_eq_true_eq] at hp
  refine ⟨?_, q, hmem, hr.symm⟩
  rw [← hr]
  exact hp.2

theorem matchRegex_some {search : String → String → Option String} {cfg : FieldConfig}
    {lns : List (String × ℚ)} {r : String × ℚ} (h : matchRegex search cfg lns = some r) :
    (∃ p ∈ lns, r.2 = p.2) ∨ r.2 = Rat.divInt 1 2 := by
  unfold matchRegex at h
  cases hrg : cfg.regex with
  | none => simp [hrg] at h
  | some rgx =>
      simp only [hrg] at h
      cases hs : search rgx (joinSpace (lns.map (fun p => p.1))) with
      | none => simp [hs] at h
      | some m =>
          simp only [hs] at h
          cases hf : lns.find? (fun p => strContains p.1 m) with
          | none =>
              simp only [hf] at h
              right
              rw [← Option.some_inj.mp h]
          | some p =>
              simp only [hf] at h
              left
              exact ⟨p, List.mem_of_find?_eq_some hf,
                by rw [← Option.some_inj.mp h]⟩

theorem finalGuard_some {o : Option (String × ℚ)} {r : String × ℚ}
    (h : (match o with
          | some r0 => if r0.1 = "" then none else some r0
          | none => none) = some r) : o = some r ∧ r.1 ≠ "" := by
  rcases o with _ | r0
  · simp at h
  · by_cases he : r0.1 = "" <;> simp [he] at h
    subst h
    exact ⟨rfl, he⟩

theorem extractOne_of_kv {search : String → String → Option String}
    {kv : List (String × (String × ℚ))} {lns : List (String × ℚ)} {cfg : FieldConfig}
    {r : String × ℚ} (h : matchKv cfg kv = some r) :
    extractOne search kv lns cfg = some r := by
  have hne := (matchKv_some h).1
  simp [extractOne, h, optEmpty, hne]

theorem extractOne_of_regex {search : String → String → Option String}
    {kv : List (String × (String × ℚ))} {lns : List (String × ℚ)} {cfg : FieldConfig}
    {r : String × ℚ} (h1 : matchKv cfg kv = none)
    (h2 : matchRegex search cfg lns = some r) (h3 : r.1 ≠ "") :
    extractOne search kv lns cfg = some r := by
  simp [extractOne, h1, h2, optEmpty, h3]

theorem extractOne_of_default {search : String → String → Option String}
    {kv : List (String × (String × ℚ))} {lns : List (String × ℚ)} {cfg : FieldConfig}
    {d : String} (h1 : matchKv cfg kv = none) (h2 : matchRegex search cfg lns = none)
    (h3 : cfg.dflt = some d) (h4 : d ≠ "") :
    extractOne search kv lns cfg = some (d, 1) := by
  simp [extractOne, h1, h2, h3, optEmpty, h4]

theorem extractOne_none_of_all_fail {search : String → String → Option String}
    {kv : List (String × (String × ℚ))} {lns : List (String × ℚ)} {cfg : FieldConfig}
    (h1 : matchKv cfg kv = none) (h2 : matchRegex search cfg lns = none)
    (h3 : cfg.dflt = none) : extractOne search kv lns cfg = none := by
  simp [extractOne, h1, h2, h3, optEmpty]

theorem extractOne_ne_empty {search : String → String → Option String}
    {kv : List (String × (String × ℚ))} {lns : List (String × ℚ)} {cfg : FieldConfig}
    {r : String × ℚ} (h : extractOne search kv lns cfg = some r) : r.1 ≠ "" := by
  unfold extractOne at h
  exact (finalGuard_some h).2

theorem extractOne_regex_empty {search : String → String → Option String}
    {kv : List (String × (String × ℚ))} {lns : List (String × ℚ)} {cfg : FieldConfig}
    {rr : String × ℚ} (h1 : matchKv cfg kv = none)
    (h2 : matchRegex search cfg lns = some rr) (h3 : rr.1 = "") :
    extractOne search kv lns cfg =
      (match cfg.dflt with
       | some d => if d = "" then none else some (d, (1 : ℚ))
       | none => none) := by
  cases hd : cfg.dflt with
  | none => simp [extractOne, h1, h2, h3, hd, optEmpty]
  | some d =>
      by_cases hde : d = "" <;> simp [extractOne, h1, h2, h3, hd, hde, optEmpty]

theorem extractOne_conf_cases {search : String → String → Option String}
    {kv : List (String × (String × ℚ))} {lns : List (String × ℚ)} {cfg : FieldConfig}
    {r : String × ℚ} (h : extractOne search kv lns cfg = some r) :
    (∃ p ∈ kv, r.2 = p.2.2) ∨ (∃ p ∈ lns, r.2 = p.2) ∨ r.2 = Rat.divInt 1 2 ∨ r.2 = 1 := by
  cases hkv : matchKv cfg kv with
  | some rk =>
      rw [extractOne_of_kv hkv] at h
      injection h with h
      subst h
      rcases (matchKv_some hkv).2 with ⟨p, hp, hrk⟩
      exact Or.inl ⟨p, hp, by rw [hrk]⟩
  | none =>
      cases hrx : matchRegex search cfg lns with
      | some rr =>
          by_cases hrre : rr.1 = ""
          · rw [extractOne_regex_empty hkv hrx hrre] at h
            cases hd : cfg.dflt with
            | none => rw [hd] at h; simp at h
            | some d =>
                rw [hd] at h
                by_cases hde : d = ""
                · simp [hde] at h
                · simp only [if_neg hde] at h
                  right; right; right
                  rw [← Option.some_inj.mp h]
          · rw [extractOne_of_regex hkv hrx hrre] at h
            injection h with h
            subst h
            rcases matchRegex_some hrx with hc | hc
            · exact Or.inr (Or.inl hc)
            · exact Or.inr (Or.inr (Or.inl hc))
      | none =>
          cases hd : cfg.dflt with
          | none =>
              rw [extractOne_none_of_all_fail hkv hrx hd] at h
              exact absurd h (by simp)
          | some d =>
              by_cases hde : d = ""
              · subst hde
                have : extractOne search kv lns cfg = none := by
                  simp [extractOne, hkv, hrx, hd, optEmpty]
                rw [this] at h
                exact absurd h (by simp)
              · rw [extractOne_of_default hkv hrx hd hde] at h
                right; right; right
                rw [← Option.some_inj.mp h]

theorem foldl_invariant {α β : Type} {step : α → β → α} (P : α → Prop)
    (L : List β) (Q : β → Prop) (hQ : ∀ b ∈ L, Q b)
    (hstep : ∀ acc b, P acc → Q b → P (step acc b)) :
    ∀ acc, P acc → P (L.foldl step acc) := by
  induction L with
  | nil => intro acc h; exact h
  | cons b L ih =>
      intro acc h
      rw [List.foldl_cons]
      exact ih (fun c hc => hQ c (List.mem_cons_of_mem _ hc))
        _ (hstep acc b h (hQ b (by simp)))

theorem sum_bounds_of_forall :
    ∀ (l : List ℚ), (∀ x ∈ l, 0 ≤ x ∧ x ≤ 100) →
      0 ≤ l.sum ∧ l.sum ≤ 100 * l.length := by
  intro l
  induction l with
  | nil => intro _; simp
  | cons x xs ih =>
      intro h
      have hx := h x (by simp)
      have hxs := ih (fun y hy => h y (List.mem_cons_of_mem _ hy))
      simp only [List.sum_cons, List.length_cons]
      push_cast
      constructor <;> nlinarith [hx.1, hx.2, hxs.1, hxs.2]

theorem pyMean_bounds (l : List ℚ) (h : ∀ x ∈ l, 0 ≤ x ∧ x ≤ 100) :
    0 ≤ pyMean l ∧ pyMean l ≤ 100 := by
  rcases hl : l with _ | ⟨x, xs⟩
  · rw [show pyMean [] = 0 from by decide]
    norm_num
  · have hs := sum_bounds_of_forall (x :: xs) (hl ▸ h)
    rw [pyMean, qdivNat_eq, qsum_eq]
    have hlen : (0:ℚ) < ((x :: xs).length : ℚ) := by
      exact_mod_cast Nat.succ_pos xs.length
    constructor
    · exact div_nonneg hs.1 hlen.le
    · rw [div_le_iff₀ hlen]
      calc (x :: xs).sum ≤ 100 * (x :: xs).length := hs.2
      _ = 100 * ((x :: xs).length : ℚ) := by norm_num

theorem qdivNat100_unit {q : ℚ} (h0 : 0 ≤ q) (h1 : q ≤ 100) :
    0 ≤ qdivNat q 100 ∧ qdivNat q 100 ≤ 1 := by
  rw [qdivNat_eq]
  have h100 : (0:ℚ) < ((100:ℕ) : ℚ) := by norm_num
  constructor
  · exact div_nonneg h0 h100.le
  · rw [div_le_one h100]
    calc q ≤ 100 := h1
    _ = ((100:ℕ) : ℚ) := by norm_num

theorem blockMap_mem {blocks : List Block} {i : String} {b : Block}
    (h : blockMap blocks i = some b) : b ∈ blocks := by
  have key : ∀ (L : List Block) (acc : Option Block),
      (∀ x, acc = some x → x ∈ blocks) → (∀ c ∈ L, c ∈ blocks) →
      ∀ x, L.foldl (fun acc b => if b.id = i then some b else acc) acc = some x →
        x ∈ blocks := by
    intro L
    induction L with
    | nil => intro acc hacc _ x hx; exact hacc x hx
    | cons c L ih =>
        intro acc hacc hL x hx
        rw [List.foldl_cons] at hx
        refine ih _ ?_ (fun e he => hL e (List.mem_cons_of_mem _ he)) x hx
        intro y hy
        split_ifs at hy
        · exact (Option.some_inj.mp hy) ▸ hL c (by simp)
        · exact hacc y hy
  exact key blocks none (by simp) (fun c hc => hc) b h

theorem getTC_bounds {blocks : List Block} {b : Block}
    (hB : ∀ x ∈ blocks, 0 ≤ x.confidence ∧ x.confidence ≤ 100)
    (hb : 0 ≤ b.confidence ∧ b.confidence ≤ 100) :
    0 ≤ (getTextAndConfidence blocks b).2 ∧ (getTextAndConfidence blocks b).2 ≤ 1 := by
  unfold getTextAndConfidence
  simp only []
  set children := ((((b.relationships.filter (fun r => r.relType = "CHILD")).map
      (fun r => r.ids)).flatten.filterMap (fun i => blockMap blocks i)).filter
      (fun c => c.blockType = "WORD")) with hchildren
  have hconfs : ∀ x ∈ children.map (fun c => c.confidence), 0 ≤ x ∧ x ≤ 100 := by
    intro x hx
    rcases List.mem_map.mp hx with ⟨c, hc, hcx⟩
    have hcb : c ∈ blocks := by
      have hc2 := List.mem_filter.mp hc
      rcases List.mem_filterMap.mp hc2.1 with ⟨i, _, hbm⟩
      exact blockMap_mem hbm
    rw [← hcx]
    exact hB c hcb
  by_cases hemp : children.map (fun c => c.confidence) = []
  · rw [if_pos hemp]
    exact qdivNat100_unit hb.1 hb.2
  · rw [if_neg hemp]
    have hm := pyMean_bounds _ hconfs
    exact qdivNat100_unit hm.1 hm.2

theorem build_structures_bounds {blocks : List Block}
    (hB : ∀ x ∈ blocks, 0 ≤ x.confidence ∧ x.confidence ≤ 100) :
    (∀ p ∈ (build_structures blocks).1, 0 ≤ p.2.2 ∧ p.2.2 ≤ 1) ∧
    (∀ p ∈ (build_structures blocks).2, 0 ≤ p.2 ∧ p.2 ≤ 1) := by
  unfold build_structures
  refine foldl_invariant
    (fun (acc : List (String × (String × ℚ)) × List (String × ℚ)) =>
      (∀ p ∈ acc.1, 0 ≤ p.2.2 ∧ p.2.2 ≤ 1) ∧ (∀ p ∈ acc.2, 0 ≤ p.2 ∧ p.2 ≤ 1))
    blocks (fun b => b ∈ blocks) (fun b hb => hb) ?_ ([], []) (by simp)
  intro acc b hP hQ
  by_cases h1 : b.blockType = "KEY_VALUE_SET" ∧ "KEY" ∈ b.entityTypes
  · simp only [if_pos h1]
    by_cases h2 : pyStrip (pyLower (getTextAndConfidence blocks b).1) = ""
    · simpa [h2] using hP
    · simp only [h2]
      have hkc := getTC_bounds hB (hB b hQ)
      have hvc : ∀ vc : String × ℚ,
          vc = (match ((b.relationships.filter (fun r => r.relType = "VALUE")).filterMap
              (fun r => r.ids.head?)).getLast? with
            | none => ("", (getTextAndConfidence blocks b).2)
            | some i => getTextAndConfidence blocks ((blockMap blocks i).getD emptyBlock)) →
          0 ≤ vc.2 ∧ vc.2 ≤ 1 := by
        intro vc hvc
        cases hlast : ((b.relationships.filter (fun r => r.relType = "VALUE")).filterMap
            (fun r => r.ids.head?)).getLast? with
        | none =>
            rw [hlast] at hvc
            subst hvc
            exact hkc
        | some i =>
            rw [hlast] at hvc
            subst hvc
            show 0 ≤ (getTextAndConfidence blocks ((blockMap blocks i).getD emptyBlock)).2 ∧
              (getTextAndConfidence blocks ((blockMap blocks i).getD emptyBlock)).2 ≤ 1
            cases hbm : blockMap blocks i with
            | none =>
                rw [Option.getD_none]
                exact getTC_bounds hB (by norm_num [emptyBlock])
            | some c =>
                rw [Option.getD_some]
                exact getTC_bounds hB (hB c (blockMap_mem hbm))
      constructor
      · intro p hp
        rcases dictInsert_mem hp with hpe | hpm
        · rw [hpe]
          exact hvc _ rfl
        · exact hP.1 p hpm
      · exact hP.2
  · simp only [if_neg h1]
    by_cases h3 : b.blockType = "LINE"
    · simp only [if_pos h3]
      by_cases h4 : b.text = ""
      · simpa [h4] using hP
      · simp only [h4, if_neg (by simpa using h4)]
        refine ⟨hP.1, ?_⟩
        intro p hp
        rcases List.mem_append.mp hp with hp1 | hp1
        · exact hP.2 p hp1
        · have : p = (b.text, qdivNat b.confidence 100) := by simpa using hp1
          rw [this]
          exact qdivNat100_unit (hB b hQ).1 (hB b hQ).2
    · simpa [h3] using hP

theorem extractedPairs_bounds {search : String → String → Option String}
    {blocks : List Block}
    (hB : ∀ x ∈ blocks, 0 ≤ x.confidence ∧ x.confidence ≤ 100) :
    ∀ p ∈ extractedPairs search blocks, 0 ≤ p.2.2 ∧ p.2.2 ≤ 1 := by
  intro p hp
  unfold extractedPairs at hp
  rcases List.mem_filterMap.mp hp with ⟨fc, _, hmap⟩
  rcases Option.map_eq_some'.mp hmap with ⟨r, hr, hpr⟩
  rw [← hpr]
  show 0 ≤ r.2 ∧ r.2 ≤ 1
  rcases extractOne_conf_cases hr with ⟨q, hq, hrq⟩ | ⟨q, hq, hrq⟩ | hc | hc
  · rw [hrq]
    exact (build_structures_bounds hB).1 q hq
  · rw [hrq]
    exact (build_structures_bounds hB).2 q hq
  · rw [hc, Rat.divInt_eq_div]
    norm_num
  · rw [hc]
    norm_num

theorem extractedPairs_ne_empty {search : String → String → Option String}
    {blocks : List Block} :
    ∀ p ∈ extractedPairs search blocks, p.2.1 ≠ "" := by
  intro p hp
  unfold extractedPairs at hp
  rcases List.mem_filterMap.mp hp with ⟨fc, _, hmap⟩
  rcases Option.map_eq_some'.mp hmap with ⟨r, hr, hpr⟩
  rw [← hpr]
  exact extractOne_ne_empty hr

theorem extract_fields_conf_facts {search : String → String → Option String}
    {blocks : List Block} (T : ℚ) (required : List String)
    (hB : ∀ x ∈ blocks, 0 ≤ x.confidence ∧ x.confidence ≤ 100) :
    ∀ p ∈ (extract_fields search T required blocks).fieldConfidence,
      (0 ≤ p.2 ∧ p.2 ≤ 1) ∧
      ∃ v, alookup (extract_fields search T required blocks).fields p.1 = some v ∧ v ≠ "" := by
  intro p hp
  rw [extract_fields_eq] at hp ⊢
  simp only [] at hp ⊢
  rcases List.mem_map.mp hp with ⟨q, hq, hpq⟩
  constructor
  · rw [← hpq]
    have hb := extractedPairs_bounds hB q hq
    exact pyRound4_mem_unit hb.1 hb.2
  · have hkey : ∃ pp ∈ (extractedPairs search blocks).map (fun p => (p.1, p.2.1)), pp.1 = p.1 :=
      ⟨(q.1, q.2.1), List.mem_map_of_mem _ hq, by rw [← hpq]⟩
    rcases alookup_some_of_mem_key hkey with ⟨v, hv, hvm⟩
    refine ⟨v, hv, ?_⟩
    rcases List.mem_map.mp hvm with ⟨q2, hq2, hq2e⟩
    have hv2 : v = q2.2.1 := by
      have := (Prod.mk.injEq _ _ _ _).mp hq2e
      exact this.2.symm
    rw [hv2]
    exact extractedPairs_ne_empty q2 hq2

/-! ### Model-based extractor lemmas -/

theorem claude_fold_spec (T : ℚ) (parsed : ParsedResponse) :
    ∀ (L : List (String × JVal)) (acc : ClaudeOut),
      L.foldl
        (fun (acc : ClaudeOut) fv =>
          if fv.2 = JVal.null then acc
          else
            let conf := (alookup parsed.confidence fv.1).getD 0
            { fields := acc.fields ++ [fv],
              fieldConfidence := acc.fieldConfidence ++ [(fv.1, pyRound4 conf)],
              needsReviewFields :=
                acc.needsReviewFields ++ (if conf < T then [fv.1] else []) })
        acc =
      { fields := acc.fields ++ L.filter (fun fv => fv.2 ≠ JVal.null),
        fieldConfidence := acc.fieldConfidence ++
          (L.filter (fun fv => fv.2 ≠ JVal.null)).map
            (fun fv => (fv.1, pyRound4 ((alookup parsed.confidence fv.1).getD 0))),
        needsReviewFields := acc.needsReviewFields ++
          ((L.filter (fun fv => fv.2 ≠ JVal.null)).filter
            (fun fv => (alookup parsed.confidence fv.1).getD 0 < T)).map
              (fun fv => fv.1) } := by
  intro L
  induction L with
  | nil => intro acc; simp
  | cons fv L ih =>
      intro acc
      rw [List.foldl_cons]
      by_cases hn : fv.2 = JVal.null
      · simp only [if_pos hn]
        rw [ih]
        simp [List.filter_cons, hn]
      · simp only [if_neg hn]
        rw [ih]
        by_cases hc : (alookup parsed.confidence fv.1).getD 0 < T <;>
          simp [List.filter_cons, hn, hc, List.append_assoc]

theorem claude_required_fold_mono (P : String → Prop) [DecidablePred P] :
    ∀ (L : List String) (nrf : List String) (x : String), x ∈ nrf →
      x ∈ L.foldl (fun nrf req => if P req ∧ req ∉ nrf then nrf ++ [req] else nrf) nrf := by
  intro L
  induction L with
  | nil => intro nrf x hx; exact hx
  | cons r L ih =>
      intro nrf x hx
      rw [List.foldl_cons]
      apply ih
      split_ifs <;> simp [hx]

theorem claude_required_fold_mem (P : String → Prop) [DecidablePred P] :
    ∀ (L : List String) (nrf : List String) (req : String), req ∈ L → P req →
      req ∈ L.foldl (fun nrf req => if P req ∧ req ∉ nrf then nrf ++ [req] else nrf) nrf := by
  intro L
  induction L with
  | nil => intro _ _ h _; simp at h
  | cons r L ih =>
      intro nrf req hreq hg
      rw [List.foldl_cons]
      rcases List.mem_cons.mp hreq with rfl | hreq2
      · by_cases hin : req ∈ nrf
        · exact claude_required_fold_mono P L _ req (by split_ifs <;> simp [hin])
        · rw [if_pos ⟨hg, hin⟩]
          exact claude_required_fold_mono P L _ req (by simp)
      · exact ih _ req hreq2 hg

/-- **C9**: Under the precondition that input confidences lie in the source's
range — Textract block/word confidences in `[0, 100]`, the model's confidence
map in `[0, 1]` — every confidence value stored in `fieldConfidence` by either
extractor strategy lies in `[0.0, 1.0]`, and every key of `fieldConfidence` is
a field whose extracted value is present and non-empty (pattern strategy)
resp. non-null (model strategy). -/
theorem C9_confidence_range (search : String → String → Option String) (T : ℚ)
    (required : List String) (blocks : List Block)
    (hB : ∀ x ∈ blocks, 0 ≤ x.confidence ∧ x.confidence ≤ 100)
    (jparse : String → Option ParsedResponse) (raw : String) (parsed : ParsedResponse)
    (out : ClaudeOut) :
    (∀ p ∈ (extract_fields search T required blocks).fieldConfidence,
      (0 ≤ p.2 ∧ p.2 ≤ 1) ∧
      ∃ v, alookup (extract_fields search T required blocks).fields p.1 = some v ∧ v ≠ "") ∧
    (jparse (stripFences raw) = some parsed →
      (∀ q ∈ parsed.confidence, 0 ≤ q.2 ∧ q.2 ≤ 1) →
      claude_extract_fields jparse T raw = .ok out →
      ∀ p ∈ out.fieldConfidence, (0 ≤ p.2 ∧ p.2 ≤ 1) ∧
        ∃ v, alookup out.fields p.1 = some v ∧ v ≠ JVal.null) := by
  refine ⟨extract_fields_conf_facts T required hB, ?_⟩
  intro hp hconf hok
  simp only [claude_extract_fields, hp] at hok
  rw [claude_fold_spec T parsed parsed.fields ⟨[], [], []⟩] at hok
  simp only [List.nil_append] at hok
  injection hok with hok
  subst hok
  intro p hp2
  simp only [] at hp2
  rcases List.mem_map.mp hp2 with ⟨fv, hfv, hpfv⟩
  have hfv2 := List.mem_filter.mp hfv
  constructor
  · rw [← hpfv]
    have hcb : 0 ≤ (alookup parsed.confidence fv.1).getD 0 ∧
        (alookup parsed.confidence fv.1).getD 0 ≤ 1 := by
      cases hal : alookup parsed.confidence fv.1 with
      | none => norm_num
      | some c =>
          rw [Option.getD_some]
          exact hconf (fv.1, c) (alookup_mem_of_some hal)
    exact pyRound4_mem_unit hcb.1 hcb.2
  · have hkey : ∃ pp ∈ parsed.fields.filter (fun fv => fv.2 ≠ JVal.null), pp.1 = p.1 :=
      ⟨fv, hfv, by rw [← hpfv]⟩
    rcases alookup_some_of_mem_key hkey with ⟨v, hv, hvm⟩
    refine ⟨v, hv, ?_⟩
    have := List.mem_filter.mp hvm
    simpa using this.2

/-- **C9** witness: on the concrete form `cxBlocks` the pattern extractor
stores `currency ↦ 1.0` with the value `"MXN"` present; on the concrete model
response `cxParsed` the model extractor stores `policyNumber ↦ 0.9` with a
non-null value present. -/
theorem C9_confidence_range_witness :
    (((0:ℚ) ≤ 1 ∧ (1:ℚ) ≤ 1) ∧
      ∃ v, alookup (extract_fields noSearch defaultThreshold REQUIRED_FIELDS cxBlocks).fields
        "currency" = some v ∧ v ≠ "") ∧
    (((0:ℚ) ≤ Rat.divInt 9 10 ∧ Rat.divInt 9 10 ≤ 1) ∧
      ∃ v, alookup [("policyNumber", JVal.str "AB-1")] "policyNumber" = some v ∧
        v ≠ JVal.null) := by
  have h := C9_confidence_range noSearch defaultThreshold REQUIRED_FIELDS cxBlocks
    (by decide) cxJparse "x" cxParsed
    ⟨[("policyNumber", JVal.str "AB-1")], [("policyNumber", Rat.divInt 9 10)],
     ["insuredName", "policyType", "insurer", "startDate", "endDate"]⟩
  have hpat := h.1 ("currency", 1) (by decide)
  have hcl := h.2 rfl (by decide) (by rfl) ("policyNumber", Rat.divInt 9 10) (by decide)
  exact ⟨hpat, hcl⟩

/-- **C8**: For the model-based extractor: markdown code-fence wrapping is
stripped before JSON parsing (concretely, a fenced response strips to its
payload); a JSON parse failure on the stripped text propagates to the caller
as an error, never silently defaulted; and every required field absent from
the parsed non-null field values appears in `needsReviewFields`, whether or
not the model reported a confidence entry for it. -/
theorem C8_model_extractor (jparse : String → Option ParsedResponse) (T : ℚ)
    (raw : String) (parsed : ParsedResponse) (out : ClaudeOut) (req : String) :
    (stripFences "```json\n\x7b\"fields\": \x7b\x7d\x7d\n```" = "\x7b\"fields\": \x7b\x7d\x7d") ∧
    (jparse (stripFences raw) = none →
      claude_extract_fields jparse T raw = .error "JSONDecodeError") ∧
    (jparse (stripFences raw) = some parsed →
      claude_extract_fields jparse T raw = .ok out →
      req ∈ claudeRequired → alookup out.fields req = none →
      req ∈ out.needsReviewFields) := by
  refine ⟨by decide, ?_, ?_⟩
  · intro h
    simp [claude_extract_fields, h]
  · intro hp hok hreq habs
    simp only [claude_extract_fields, hp] at hok
    rw [claude_fold_spec T parsed parsed.fields ⟨[], [], []⟩] at hok
    simp only [List.nil_append] at hok
    injection hok with hok
    subst hok
    simp only [] at habs ⊢
    apply claude_required_fold_mem
      (fun r => ¬ (parsed.fields.filter (fun fv => fv.2 ≠ JVal.null)).any
        (fun p => p.1 = r)) claudeRequired _ req hreq
    intro hany
    simp only [List.any_eq_true, decide_eq_true_eq] at hany
    rcases hany with ⟨q, hq, hqk⟩
    rcases alookup_some_of_mem_key ⟨q, hq, hqk⟩ with ⟨v, hv, _⟩
    rw [habs] at hv
    exact absurd hv (by simp)

/-- **C8** witness: a parse failure is surfaced as an error, and the required
field `endDate` — returned as `null` by the model, with no confidence entry —
is flagged for review. -/
theorem C8_model_extractor_witness :
    claude_extract_fields (fun _ => none) defaultThreshold "x" =
      .error "JSONDecodeError" ∧
    "endDate" ∈ (["insuredName", "policyType", "insurer", "startDate", "endDate"] :
      List String) := by
  refine ⟨(C8_model_extractor (fun _ => none) defaultThreshold "x" ⟨[], []⟩
    ⟨[], [], []⟩ "x").2.1 rfl, ?_⟩
  have h := (C8_model_extractor cxJparse defaultThreshold "x" cxParsed
    ⟨[("policyNumber", JVal.str "AB-1")], [("policyNumber", Rat.divInt 9 10)],
     ["insuredName", "policyType", "insurer", "startDate", "endDate"]⟩ "endDate").2.2
    rfl (by rfl) (by decide) (by decide)
  exact h

/-- Lookup in the extractor output, in terms of the field's own three-path
result `extractOne`. -/
theorem extract_fields_lookup (search : String → String → Option String) (T : ℚ)
    (required : List String) (blocks : List Block) (field : String) (cfg : FieldConfig)
    (hmem : (field, cfg) ∈ FIELD_PATTERNS) :
    alookup (extract_fields search T required blocks).fields field =
      (extractOne search (build_structures blocks).1 (build_structures blocks).2 cfg).map
        (fun r => r.1) ∧
    alookup (extract_fields search T required blocks).fieldConfidence field =
      (extractOne search (build_structures blocks).1 (build_structures blocks).2 cfg).map
        (fun r => pyRound4 r.2) := by
  have hnd : (FIELD_PATTERNS.map Prod.fst).Nodup := by decide
  have hEP : extractedPairs search blocks =
      FIELD_PATTERNS.filterMap
        (fun fc => (extractOne search (build_structures blocks).1
          (build_structures blocks).2 fc.2).map (fun r => (fc.1, r))) := rfl
  have hpairs := alookup_filterMap_keyed
    (fun fc => extractOne search (build_structures blocks).1 (build_structures blocks).2 fc.2)
    FIELD_PATTERNS hnd hmem
  rw [← hEP] at hpairs
  rw [extract_fields_eq]
  simp only []
  rw [alookup_map_val, alookup_map_val]
  have halo : alookup (extractedPairs search blocks) field =
      ((extractedPairs search blocks).find? (fun p => p.1 = field)).map (fun p => p.2) := rfl
  rw [halo] at hpairs
  replace hpairs :
      ((extractedPairs search blocks).find? (fun p => p.1 = field)).map (fun p => p.2) =
        extractOne search (build_structures blocks).1 (build_structures blocks).2 cfg := hpairs
  cases hEO : extractOne search (build_structures blocks).1 (build_structures blocks).2 cfg with
  | none =>
      rw [hEO] at hpairs
      have hF : (extractedPairs search blocks).find? (fun p => p.1 = field) = none := by
        cases hF2 : (extractedPairs search blocks).find? (fun p => p.1 = field) with
        | none => rfl
        | some q => rw [hF2] at hpairs; simp at hpairs
      rw [hF]
      simp
  | some r =>
      rw [hEO] at hpairs
      rcases Option.map_eq_some'.mp hpairs with ⟨q, hF, hq2⟩
      rw [hF]
      simp only [Option.map_some']
      constructor
      · rw [hq2]
      · rw [hq2]

/-- **C7** (amended): for each target field the pattern extractor tries, in
order: (1) a case-insensitive — lower-cased but **not** diacritic-folded —
substring match of the field's label synonyms against the recognised key/value
pairs, taking the stripped paired value and its confidence when that value is
non-empty; (2) the field's regular expression over the space-joined line text,
taking the confidence of the first line containing the match, or `0.5` when no
line contains it; (3) the field's default where one is defined
(`currency → "MXN"` at confidence 1.0).  A field appears in the output exactly
when one of the three paths produced a non-empty value; the stored confidence
is the raw confidence rounded to four decimals. -/
theorem C7_extractor_priority (search : String → String → Option String) (T : ℚ)
    (required : List String) (blocks : List Block) (field : String) (cfg : FieldConfig)
    (hmem : (field, cfg) ∈ FIELD_PATTERNS) :
    (∀ r, matchKv cfg (build_structures blocks).1 = some r →
      alookup (extract_fields search T required blocks).fields field = some r.1 ∧
      alookup (extract_fields search T required blocks).fieldConfidence field =
        some (pyRound4 r.2)) ∧
    (matchKv cfg (build_structures blocks).1 = none →
      ∀ r, matchRegex search cfg (build_structures blocks).2 = some r → r.1 ≠ "" →
      alookup (extract_fields search T required blocks).fields field = some r.1 ∧
      alookup (extract_fields search T required blocks).fieldConfidence field =
        some (pyRound4 r.2)) ∧
    (∀ rgx m, cfg.regex = some rgx →
      search rgx (joinSpace ((build_structures blocks).2.map (fun p => p.1))) = some m →
      matchRegex search cfg (build_structures blocks).2 =
        some (m, (match (build_structures blocks).2.find? (fun p => strContains p.1 m) with
          | some p => p.2
          | none => Rat.divInt 1 2))) ∧
    (matchKv cfg (build_structures blocks).1 = none →
      matchRegex search cfg (build_structures blocks).2 = none →
      ∀ d, cfg.dflt = some d → d ≠ "" →
      alookup (extract_fields search T required blocks).fields field = some d ∧
      alookup (extract_fields search T required blocks).fieldConfidence field =
        some (pyRound4 1)) ∧
    ((∃ v, alookup (extract_fields search T required blocks).fields field = some v) ↔
      (∃ r, extractOne search (build_structures blocks).1 (build_structures blocks).2 cfg
        = some r)) := by
  have hl := extract_fields_lookup search T required blocks field cfg hmem
  refine ⟨?_, ?_, ?_, ?_, ?_⟩
  · intro r hkv
    rw [hl.1, hl.2, extractOne_of_kv hkv]
    simp
  · intro hkv r hrx hne
    rw [hl.1, hl.2, extractOne_of_regex hkv hrx hne]
    simp
  · intro rgx m hrgx hsearch
    unfold matchRegex
    simp only [hrgx, hsearch]
    cases hf : (build_structures blocks).2.find? (fun p => strContains p.1 m) <;>
      simp [hf]
  · intro hkv hrx d hd hdne
    rw [hl.1, hl.2, extractOne_of_default hkv hrx hd hdne]
    simp
  · rw [hl.1]
    cases hEO : extractOne search (build_structures blocks).1 (build_structures blocks).2 cfg
      <;> simp

/-- **C7** (counterexample): the key-phrase match is not diacritic-insensitive.
On the concrete form `cxBlocks`, whose recognised key reads
"Numero de Poliza" (without accents, as OCR frequently yields), the
diacritic-insensitive match the spec describes (`specMatchKv`) finds the
policy number `"AB-12345"` at confidence `0.95`, but the source's `_match_kv`
matches none of the synonyms and the field is absent from the extractor
output. -/
theorem C7_counterexample :
    specMatchKv ((alookup FIELD_PATTERNS "policyNumber").getD ⟨[], none, none⟩)
        (build_structures cxBlocks).1 = some ("AB-12345", Rat.divInt 19 20) ∧
    matchKv ((alookup FIELD_PATTERNS "policyNumber").getD ⟨[], none, none⟩)
        (build_structures cxBlocks).1 = none ∧
    alookup (extract_fields noSearch defaultThreshold REQUIRED_FIELDS cxBlocks).fields
      "policyNumber" = none := by
  decide

/-- **C7** witness: on `cxBlocks` the `currency` field is produced by the
default path with value `"MXN"` at confidence 1.0. -/
theorem C7_extractor_priority_witness :
    alookup (extract_fields noSearch defaultThreshold REQUIRED_FIELDS cxBlocks).fields
      "currency" = some "MXN" ∧
    alookup (extract_fields noSearch defaultThreshold REQUIRED_FIELDS cxBlocks).fieldConfidence
      "currency" = some (pyRound4 1) := by
  exact (C7_extractor_priority noSearch defaultThreshold REQUIRED_FIELDS cxBlocks
    "currency" ⟨["moneda", "currency"], none, some "MXN"⟩ (by decide)).2.2.2.1
    (by decide) (by decide) "MXN" rfl (by decide)

theorem dedupKeepFirst_mem_aux :
    ∀ (l : List String) (acc : List String) (x : String),
      x ∈ l.foldl (fun acc f => if f ∈ acc then acc else acc ++ [f]) acc ↔
        x ∈ acc ∨ x ∈ l := by
  intro l
  induction l with
  | nil => intro acc x; simp
  | cons f l ih =>
      intro acc x
      rw [List.foldl_cons]
      by_cases hf : f ∈ acc
      · rw [if_pos hf, ih]
        constructor
        · rintro (h | h)
          exacts [Or.inl h, Or.inr (by simp [h])]
        · rintro (h | h)
          · exact Or.inl h
          · rcases List.mem_cons.mp h with rfl | h2
            exacts [Or.inl hf, Or.inr h2]
      · rw [if_neg hf, ih]
        simp only [List.mem_append, List.mem_singleton, List.mem_cons]
        tauto

theorem dedupKeepFirst_mem (l : List String) (x : String) :
    x ∈ dedupKeepFirst l ↔ x ∈ l := by
  unfold dedupKeepFirst
  rw [dedupKeepFirst_mem_aux]
  simp

theorem dedupKeepFirst_eq_nil_iff (l : List String) : dedupKeepFirst l = [] ↔ l = [] := by
  constructor
  · intro h
    rw [List.eq_nil_iff_forall_not_mem]
    intro x hx
    have h2 := (dedupKeepFirst_mem l x).mpr hx
    rw [h] at h2
    simp at h2
  · intro h
    subst h
    rfl

/-- The success branch of the Parse Worker: the final unconditional write. -/
theorem parseStep_success (search : String → String → Option String) (T : ℚ)
    (required : List String) (ev : ParseEvent) (blocks : List Block) (d : Doc)
    (hpid : ev.policyId ≠ "") (hnt : d.status.isTerminal = false)
    (hst : ev.status ≠ "FAILED") :
    parseStep search T required ev blocks d =
      ⟨{ d with
          status := parseFinal search T required blocks d,
          fieldConfidence := (extract_fields search T required blocks).fieldConfidence,
          needsReviewFields := (extract_fields search T required blocks).needsReviewFields,
          fields := (parseFields1 search T required blocks d).foldl
            (fun acc p => dictInsert acc p.1 p.2) d.fields },
       [⟨some (parseFinal search T required blocks d), none⟩]⟩ := by
  unfold parseStep
  rw [if_neg hpid, if_neg (by simp [hnt]), if_neg hst]

theorem parseFields1_lookup_of_key {search : String → String → Option String} {T : ℚ}
    {required : List String} {blocks : List Block} {d : Doc} {f : String}
    (hkey : ∃ p ∈ (extract_fields search T required blocks).fields, p.1 = f) :
    truthy (alookup (parseFields1 search T required blocks d) f) = true := by
  have hvn : ∀ q ∈ (extract_fields search T required blocks).fields, q.2 ≠ "" := by
    intro q hq
    rw [extract_fields_eq] at hq
    rcases List.mem_map.mp hq with ⟨q2, hq2, hq2e⟩
    have : q.2 = q2.2.1 := by rw [← hq2e]
    rw [this]
    exact extractedPairs_ne_empty q2 hq2
  rcases alookup_some_of_mem_key hkey with ⟨v, hv, hvm⟩
  have hvne : v ≠ "" := hvn (f, v) hvm
  unfold parseFields1
  by_cases hfr : truthy (parseRenewal search T required blocks d)
  · rw [if_pos hfr]
    by_cases hf : f = "fechaRenovacion"
    · subst hf
      rw [show "fechaRenovacion" = "fechaRenovacion" from rfl] at hv ⊢
      rw [alookup_dictInsert_self]
      cases hfr2 : parseRenewal search T required blocks d with
      | none => rw [hfr2] at hfr; simp [truthy] at hfr
      | some frv =>
          rw [hfr2] at hfr
          simp only [truthy, Option.getD_some]
          simpa [truthy] using hfr
    · rw [alookup_dictInsert_ne _ _ (fun hc => hf hc.symm), hv]
      simpa [truthy] using hvne
  · rw [if_neg hfr, hv]
    simpa [truthy] using hvne

/-- **C4**: For every successful extraction finalised by the Parse Worker
(threshold expressible with four decimals, as the configured `0.75` is), the
stored `needsReviewFields` list is empty if and only if the final written
status is `EXTRACTED` — equivalently, it is non-empty whenever the final
status is `NEEDS_REVIEW`. -/
theorem C4_needs_review_iff (search : String → String → Option String) (T : ℚ) (k : ℤ)
    (required : List String) (blocks : List Block) (ev : ParseEvent) (d : Doc)
    (hT : T = Rat.divInt k 10000)
    (hnt : d.status.isTerminal = false)
    (hpid : ev.policyId ≠ "")
    (hst : ev.status ≠ "FAILED") :
    ((parseStep search T required ev blocks d).doc.needsReviewFields = [] ↔
     (parseStep search T required ev blocks d).doc.status = EXTRACTED) := by
  rw [parseStep_success search T required ev blocks d hpid hnt hst]
  simp only []
  constructor
  · intro hnil
    have hchar := extract_fields_eq search T required blocks
    have hnil2 : ((extractedPairs search blocks).filter
          (fun p => p.2.2 < T)).map (fun p => p.1) ++
        required.filter (fun f => ¬ (extractedPairs search blocks).any (fun p => p.1 = f))
          = [] := by
      have := hnil
      rw [hchar] at this
      exact (dedupKeepFirst_eq_nil_iff _).mp this
    rcases List.append_eq_nil.mp hnil2 with ⟨hflags, hreq⟩
    have hflags2 : ∀ p ∈ extractedPairs search blocks, ¬ (p.2.2 < T) := by
      have hfe : (extractedPairs search blocks).filter (fun p => p.2.2 < T) = [] :=
        List.map_eq_nil_iff.mp hflags
      intro p hp hlt
      have := List.filter_eq_nil_iff.mp hfe p hp
      simp [hlt] at this
    have hreq2 : ∀ f ∈ required, (extractedPairs search blocks).any (fun p => p.1 = f) := by
      intro f hf
      have := List.filter_eq_nil_iff.mp hreq f hf
      simpa using this
    have hmissing : parseMissing search T required blocks d = [] := by
      unfold parseMissing
      rw [List.filter_eq_nil_iff]
      intro f hf
      have hany := hreq2 f hf
      simp only [List.any_eq_true, decide_eq_true_eq] at hany
      rcases hany with ⟨p, hp, hpk⟩
      have hkey : ∃ q ∈ (extract_fields search T required blocks).fields, q.1 = f := by
        rw [hchar]
        exact ⟨(p.1, p.2.1), List.mem_map_of_mem _ hp, hpk⟩
      simp [parseFields1_lookup_of_key hkey]
    have hlow : parseLow search T required blocks = [] := by
      unfold parseLow
      rw [List.map_eq_nil_iff, List.filter_eq_nil_iff]
      intro q hq
      rw [hchar] at hq
      simp only [] at hq
      rcases List.mem_map.mp hq with ⟨p, hp, hpq⟩
      have hge : T ≤ p.2.2 := not_lt.mp (hflags2 p hp)
      have hr4 : T ≤ pyRound4 p.2.2 := pyRound4_le_of_le hT hge
      have hq2 : q.2 = pyRound4 p.2.2 := by rw [← hpq]
      simp only [decide_eq_true_eq, not_and]
      intro hlt
      exact absurd (hq2 ▸ hlt) (not_lt.mpr hr4)
    unfold parseFinal
    rw [if_neg]
    push_neg
    exact ⟨hmissing, hlow, hnil⟩
  · intro hex
    unfold parseFinal at hex
    by_cases hc : parseMissing search T required blocks d ≠ [] ∨
        parseLow search T required blocks ≠ [] ∨
        (extract_fields search T required blocks).needsReviewFields ≠ []
    · rw [if_pos hc] at hex
      exact absurd hex (by simp)
    · push_neg at hc
      exact hc.2.2

/-- **C4** witness: on empty Textract output the required fields are missing,
so the stored review list is non-empty and the final status is
`NEEDS_REVIEW` (both sides of the equivalence are false); the hypotheses are
discharged at the default threshold `0.75 = 7500/10000`. -/
theorem C4_needs_review_iff_witness :
    ((parseStep noSearch defaultThreshold REQUIRED_FIELDS cxE2 [] (someDoc PROCESSING)
      ).doc.needsReviewFields = [] ↔
     (parseStep noSearch defaultThreshold REQUIRED_FIELDS cxE2 [] (someDoc PROCESSING)
      ).doc.status = EXTRACTED) := by
  exact C4_needs_review_iff noSearch defaultThreshold 7500 REQUIRED_FIELDS [] cxE2
    (someDoc PROCESSING) (by decide) (by decide) (by decide) (by decide)

/-! ### Redelivery no-op lemmas and the transition theorem -/

theorem extract_noop_processing (d : Doc) (hs : d.status = PROCESSING)
    (hj : d.textractJobId.isSome) :
    ∀ cf o, extractStep d cf o = ⟨d, [], false, none, false⟩ := by
  intro cf o
  unfold extractStep
  rw [if_neg (by simp [Status.isTerminal, hs]), if_pos ⟨hs, hj⟩]

theorem extract_noop_other (d : Doc) (hs1 : d.status ≠ UPLOADED)
    (hs2 : d.status ≠ PROCESSING) :
    ∀ cf o, extractStep d cf o = ⟨d, [], false, none, false⟩ := by
  intro cf o
  unfold extractStep
  by_cases ht : d.status.isTerminal
  · rw [if_pos ht]
  · rw [if_neg ht, if_neg (by simp [hs2]), if_pos ⟨hs1, hs2⟩]

theorem parse_noop_terminal (search : String → String → Option String) (T : ℚ)
    (required : List String) (d : Doc) (ht : d.status.isTerminal = true) :
    ∀ ev blocks, parseStep search T required ev blocks d = ⟨d, []⟩ := by
  intro ev blocks
  unfold parseStep
  by_cases hp : ev.policyId = ""
  · rw [if_pos hp]
  · rw [if_neg hp, if_pos ht]

theorem ingest_noop_uploaded (d : Doc) (hs : d.status = UPLOADED) (u : String)
    (hu : d.userId = u) : ∀ cf, post_ingest u d cf = ⟨d, 200, [], []⟩ := by
  intro cf
  unfold post_ingest
  rw [if_neg (by simp [hu]), if_pos hs]

theorem parseFinal_cases (search : String → String → Option String) (T : ℚ)
    (required : List String) (blocks : List Block) (d : Doc) :
    parseFinal search T required blocks d = NEEDS_REVIEW ∨
    parseFinal search T required blocks d = EXTRACTED := by
  unfold parseFinal
  split_ifs <;> simp

/-- **C1** (amended): with documents at rest satisfying the invariant that a
`PROCESSING` record carries its job id, every pipeline invocation preserves
that invariant and either leaves `status` unchanged or moves it along an edge
of the §4.1 graph — **except** that a completion notification delivered while
the document is in any non-terminal state applies its finalisation write from
that state (`FAILED`/`EXTRACTED`/`NEEDS_REVIEW`), as a stale redelivered
notification after a `FAILED → UPLOADED` retry can do.  The redelivery guards
hold as the claim states them for the states the workers recognise: a record
already `PROCESSING` with a recorded job id makes the Extraction Worker a
no-op that starts no second job, a terminal record makes the Parse Worker a
no-op, and a record already `UPLOADED` makes the Ingestion Trigger return
success without publishing a second work item. -/
theorem C1_transitions (search : String → String → Option String) (T : ℚ)
    (required : List String) (d : Doc) (inv : Inv) (hInv : statusInv d) :
    (statusInv (applyInv search T required d inv) ∧
      ((applyInv search T required d inv).status = d.status ∨
        specEdge d.status (applyInv search T required d inv).status = true ∨
        (∃ ev blocks, inv = Inv.parse ev blocks ∧ d.status.isTerminal = false ∧
          ((applyInv search T required d inv).status = FAILED ∨
           (applyInv search T required d inv).status = EXTRACTED ∨
           (applyInv search T required d inv).status = NEEDS_REVIEW)))) ∧
    (d.status = PROCESSING → d.textractJobId.isSome → ∀ cf o,
      extractStep d cf o = ⟨d, [], false, none, false⟩) ∧
    (d.status.isTerminal = true → ∀ ev blocks,
      parseStep search T required ev blocks d = ⟨d, []⟩) ∧
    (d.status = UPLOADED → ∀ u, d.userId = u → ∀ cf,
      post_ingest u d cf = ⟨d, 200, [], []⟩) := by
  refine ⟨?_, fun hs hj => extract_noop_processing d hs hj,
    fun ht => parse_noop_terminal search T required d ht,
    fun hs u hu => ingest_noop_uploaded d hs u hu⟩
  rcases inv with ⟨u, cf⟩ | ⟨cf, o⟩ | ⟨ev, blocks⟩
  · -- ingest invocation
    by_cases hu : d.userId ≠ u
    · constructor
      · simpa [applyInv, post_ingest, hu] using hInv
      · left
        simp [applyInv, post_ingest, hu]
    · push_neg at hu
      by_cases hs : d.status = UPLOADED
      · rw [show applyInv search T required d (Inv.ingest u cf) =
            (post_ingest u d cf).doc from rfl, ingest_noop_uploaded d hs u hu cf]
        exact ⟨hInv, Or.inl rfl⟩
      · by_cases hcf : d.status ≠ CREATED ∧ d.status ≠ FAILED
        · have : post_ingest u d cf = ⟨d, 409, [], []⟩ := by
            unfold post_ingest
            rw [if_neg (by simp [hu]), if_neg hs, if_pos hcf]
          rw [show applyInv search T required d (Inv.ingest u cf) =
            (post_ingest u d cf).doc from rfl, this]
          exact ⟨hInv, Or.inl rfl⟩
        · push_neg at hcf
          by_cases hcf2 : cf
          · have : post_ingest u d cf = ⟨d, 200, [], []⟩ := by
              unfold post_ingest
              rw [if_neg (by simp [hu]), if_neg hs, if_neg (by push_neg; exact hcf),
                if_pos hcf2]
            rw [show applyInv search T required d (Inv.ingest u cf) =
              (post_ingest u d cf).doc from rfl, this]
            exact ⟨hInv, Or.inl rfl⟩
          · have hdoc : (post_ingest u d cf).doc.status = UPLOADED ∧
                (post_ingest u d cf).doc.textractJobId = d.textractJobId := by
              unfold post_ingest
              rw [if_neg (by simp [hu]), if_neg hs, if_neg (by push_neg; exact hcf),
                if_neg hcf2]
              by_cases hF : d.status = FAILED <;> simp [hF]
            constructor
            · intro hP
              rw [show applyInv search T required d (Inv.ingest u cf) =
                (post_ingest u d cf).doc from rfl] at hP
              rw [hdoc.1] at hP
              exact absurd hP (by decide)
            · right; left
              rw [show applyInv search T required d (Inv.ingest u cf) =
                (post_ingest u d cf).doc from rfl, hdoc.1]
              by_cases hC : d.status = CREATED
              · rw [hC]; rfl
              · rcases hC2 : d.status <;> simp_all [specEdge]
  · -- extraction-worker invocation
    by_cases hs : d.status = UPLOADED
    · have happ : applyInv search T required d (Inv.extract cf o) =
          (extractStep d cf o).doc := rfl
      by_cases hcf : cf
      · have : extractStep d cf o = ⟨d, [], false, none, false⟩ := by
          unfold extractStep
          rw [if_neg (by simp [Status.isTerminal, hs]), if_neg (by simp [hs]),
            if_neg (by simp [hs]), if_pos ⟨hs, hcf⟩]
        rw [happ, this]
        exact ⟨hInv, Or.inl rfl⟩
      · have hguards : ∀ o2, extractStep d cf o2 =
            (let d1 := { d with status := PROCESSING }
             let w1 : List DbWrite := [⟨some PROCESSING, some UPLOADED⟩]
             match o2 with
             | .ok jobId =>
                 ⟨{ d1 with textractJobId := some jobId }, w1 ++ [⟨none, none⟩],
                  true, some jobId, false⟩
             | .err code msg =>
                 if code ∈ permanentErrors ∨ 3 ≤ d.retryCount then
                   ⟨{ d1 with status := FAILED, lastError := some (code ++ ": " ++ msg) },
                    w1 ++ [⟨some FAILED, none⟩], true, none, false⟩
                 else
                   ⟨{ d1 with status := UPLOADED, retryCount := d.retryCount + 1 },
                    w1 ++ [⟨some UPLOADED, none⟩], true, none, true⟩) := by
          intro o2
          unfold extractStep
          rw [if_neg (by simp [Status.isTerminal, hs]), if_neg (by simp [hs]),
            if_neg (by simp [hs]), if_neg (by simp [hcf]), if_pos hs]
          rcases o2 with j | ⟨code, msg⟩ <;> simp [hs]
        rcases o with j | ⟨code, msg⟩
        · rw [happ, hguards (.ok j)]
          exact ⟨by simp [statusInv], Or.inr (Or.inl (by rw [hs]; rfl))⟩
        · by_cases hp : code ∈ permanentErrors ∨ 3 ≤ d.retryCount
          · rw [happ, hguards (.err code msg)]
            simp only [if_pos hp]
            exact ⟨by simp [statusInv], Or.inr (Or.inl (by rw [hs]; rfl))⟩
          · rw [happ, hguards (.err code msg)]
            simp only [if_neg hp]
            exact ⟨by simp [statusInv], Or.inl (by rw [hs])⟩
    · by_cases hs2 : d.status = PROCESSING
      · have hj := hInv hs2
        rw [show applyInv search T required d (Inv.extract cf o) =
          (extractStep d cf o).doc from rfl, extract_noop_processing d hs2 hj cf o]
        exact ⟨hInv, Or.inl rfl⟩
      · rw [show applyInv search T required d (Inv.extract cf o) =
          (extractStep d cf o).doc from rfl, extract_noop_other d hs hs2 cf o]
        exact ⟨hInv, Or.inl rfl⟩
  · -- parse-worker invocation
    have happ : applyInv search T required d (Inv.parse ev blocks) =
        (parseStep search T required ev blocks d).doc := rfl
    by_cases ht : d.status.isTerminal
    · rw [happ, parse_noop_terminal search T required d ht ev blocks]
      exact ⟨hInv, Or.inl rfl⟩
    · by_cases hp : ev.policyId = ""
      · have : parseStep search T required ev blocks d = ⟨d, []⟩ := by
          unfold parseStep
          rw [if_pos hp]
        rw [happ, this]
        exact ⟨hInv, Or.inl rfl⟩
      · by_cases hf : ev.status = "FAILED"
        · have : parseStep search T required ev blocks d =
              ⟨{ d with status := FAILED, lastError := some ev.statusMessage },
               [⟨some FAILED, none⟩]⟩ := by
            unfold parseStep
            rw [if_neg hp, if_neg (by simp [ht]), if_pos hf]
          rw [happ, this]
          refine ⟨by simp [statusInv], Or.inr (Or.inr ⟨ev, blocks, rfl, by simp [ht], ?_⟩)⟩
          simp
        · rw [happ, parseStep_success search T required ev blocks d hp
            (by simp [ht]) hf]
          refine ⟨?_, Or.inr (Or.inr ⟨ev, blocks, rfl, by simp [ht], ?_⟩)⟩
          · rcases parseFinal_cases search T required blocks d with hc | hc <;>
              simp [statusInv, hc]
          · rcases parseFinal_cases search T required blocks d with hc | hc <;>
              simp [hc]

/-- **C1** (counterexample): a legitimate at-least-once delivery history
(`cxTrace`: start of `job-1` which fails, a user retry, start of `job-2`
which succeeds, a redelivered duplicate of `job-1`'s failure notification,
then `job-2`'s success notification) drives the document from `FAILED`
directly to `NEEDS_REVIEW` — a transition that skips `UPLOADED`/`PROCESSING`
and lies outside the §4.1 graph; the redelivered `job-1` notification at step
6 also re-applies a transition into `FAILED` although the document had long
advanced past that point. -/
theorem C1_counterexample :
    ((cxTrace.take 6).foldl cxStep (someDoc CREATED)).status = FAILED ∧
    (cxTrace.foldl cxStep (someDoc CREATED)).status = NEEDS_REVIEW ∧
    specEdge FAILED NEEDS_REVIEW = false := by
  decide

/-- **C1** witness: a redelivered start message to a `PROCESSING` record with
a recorded job id is a no-op that starts no job; a duplicate notification to a
terminal record is a no-op; a duplicate ingest of an `UPLOADED` record
publishes nothing. -/
theorem C1_transitions_witness :
    extractStep { someDoc PROCESSING with textractJobId := some "job-1" } false
        (.ok "job-9") =
      ⟨{ someDoc PROCESSING with textractJobId := some "job-1" }, [], false, none, false⟩ ∧
    parseStep noSearch defaultThreshold REQUIRED_FIELDS cxE2 [] (someDoc EXTRACTED) =
      ⟨someDoc EXTRACTED, []⟩ ∧
    post_ingest "usr-1" (someDoc UPLOADED) false = ⟨someDoc UPLOADED, 200, [], []⟩ := by
  have h1 := C1_transitions noSearch defaultThreshold REQUIRED_FIELDS
    { someDoc PROCESSING with textractJobId := some "job-1" }
    (Inv.extract false (.ok "job-9")) (fun _ => rfl)
  have h2 := C1_transitions noSearch defaultThreshold REQUIRED_FIELDS
    (someDoc EXTRACTED) (Inv.parse cxE2 []) (fun h => absurd h (by decide))
  have h3 := C1_transitions noSearch defaultThreshold REQUIRED_FIELDS
    (someDoc UPLOADED) (Inv.ingest "usr-1" false) (fun h => absurd h (by decide))
  exact ⟨h1.2.1 rfl rfl false (.ok "job-9"), h2.2.2.1 rfl cxE2 [],
    h3.2.2.2 rfl "usr-1" rfl false⟩

end PolizaLab
